import Mathlib

/-!
# Geometry: shape buffers, scaling, rotation, coordinate systems and projections

A shallow embedding of the header-only library under `include/Geometry`
(`point.h`, `shape.h`, `Shapes2D/*.h`, `Shapes3D/*.h`, `constants.h`, `cartesian_cs_3d.h`,
`transformations.h`).

Modelling conventions.

* The coordinate type `T` of the templates is an arbitrary linearly ordered field `K`
  (exact arithmetic; rounding of `float`/`double` is outside the model).  Concrete
  evaluations are done over `ℚ`, statements that need trigonometry over `ℝ`.
* `cos`, `sin`, `tan` and `sqrt` come from `<cmath>` and the machine epsilon from `<limits>`,
  which are not part of the repository: every definition that uses them takes them as explicit
  arguments.
* `std::vector` is a `List`; `size_t` is `ℕ`.  A constructor that does `resize(n)` and then
  writes entry `i` for every `i < n` is the list `(List.range n).map _`.
* The pieces of the Eigen library that the headers call (`Matrix<T,3,1>`, `AngleAxis`,
  `Scaling`, `Transform`, `normalize`, `inverse`) are modelled in the first section.
-/

namespace geo

/-! ## The linear-algebra collaborator (Eigen) -/

/-- Modelled from the spec: `Eigen::Matrix<T, 3, 1>`, the fixed-size column vector of the
external linear-algebra library, with its three coefficients. -/
structure Vec3 (K : Type) where
  x : K
  y : K
  z : K
deriving DecidableEq

/-- The class `Point<T, 3>` of `point.h` derives from `Eigen::Matrix<T, 3, 1>` and adds no
data member. -/
abbrev Point (K : Type) := Vec3 K

section Eigen

variable {K : Type} [LinearOrderedField K]

/-- The default constructor `Point()` sets every coordinate to `0.0`. -/
instance : Zero (Vec3 K) := ⟨⟨0, 0, 0⟩⟩

/-- Coefficient-wise sum of two vectors. -/
instance : Add (Vec3 K) := ⟨fun a b => ⟨a.x + b.x, a.y + b.y, a.z + b.z⟩⟩

/-- Coefficient-wise difference of two vectors. -/
instance : Sub (Vec3 K) := ⟨fun a b => ⟨a.x - b.x, a.y - b.y, a.z - b.z⟩⟩

/-- Unary minus on a vector. -/
instance : Neg (Vec3 K) := ⟨fun a => ⟨-a.x, -a.y, -a.z⟩⟩

/-- Product `scalar * vector`. -/
instance : SMul K (Vec3 K) := ⟨fun k a => ⟨k * a.x, k * a.y, k * a.z⟩⟩

/-- The constant `Eigen::Matrix<T,3,1>::UnitX()`. -/
def Vec3.UnitX : Vec3 K := ⟨1, 0, 0⟩

/-- The constant `Eigen::Matrix<T,3,1>::UnitZ()`. -/
def Vec3.UnitZ : Vec3 K := ⟨0, 0, 1⟩

/-- The dot product `a.dot(b)`. -/
def Vec3.dot (a b : Vec3 K) : K := a.x * b.x + a.y * b.y + a.z * b.z

/-- The squared norm `a.squaredNorm()`. -/
def Vec3.squaredNorm (a : Vec3 K) : K := a.dot a

/-- The norm `a.norm()`, the square root of the squared norm. -/
def Vec3.norm (sqrt : K → K) (a : Vec3 K) : K := sqrt a.squaredNorm

/-- Modelled from the spec: `MatrixBase::normalize()` of the external library.  It computes
`z = squaredNorm()` and divides every coefficient by `sqrt(z)` when `z > 0`; a zero vector is
left as it is. -/
def Vec3.normalize (sqrt : K → K) (a : Vec3 K) : Vec3 K :=
  let z := a.squaredNorm
  if 0 < z then ⟨a.x / sqrt z, a.y / sqrt z, a.z / sqrt z⟩ else a

/-- Modelled from the spec: `Eigen::Matrix<T, 3, 3>`; `mIJ` is the coefficient of row `I`,
column `J`. -/
structure Mat3 (K : Type) where
  m00 : K
  m01 : K
  m02 : K
  m10 : K
  m11 : K
  m12 : K
  m20 : K
  m21 : K
  m22 : K
deriving DecidableEq

/-- Matrix-vector product. -/
def Mat3.mulVec (m : Mat3 K) (v : Vec3 K) : Vec3 K :=
  ⟨m.m00 * v.x + m.m01 * v.y + m.m02 * v.z,
   m.m10 * v.x + m.m11 * v.y + m.m12 * v.z,
   m.m20 * v.x + m.m21 * v.y + m.m22 * v.z⟩

/-- Determinant, expanded along the first column as the 3x3 inverse of the library does. -/
def Mat3.det (m : Mat3 K) : K :=
  (m.m11 * m.m22 - m.m12 * m.m21) * m.m00
    + (m.m02 * m.m21 - m.m01 * m.m22) * m.m10
    + (m.m01 * m.m12 - m.m02 * m.m11) * m.m20

/-- Modelled from the spec: `inverse()` of a fixed-size 3x3 matrix in the external library:
the transposed cofactor matrix multiplied by `1 / det`. -/
def Mat3.inverse (m : Mat3 K) : Mat3 K :=
  let invdet := 1 / m.det
  { m00 := (m.m11 * m.m22 - m.m12 * m.m21) * invdet
    m01 := (m.m02 * m.m21 - m.m01 * m.m22) * invdet
    m02 := (m.m01 * m.m12 - m.m02 * m.m11) * invdet
    m10 := (m.m12 * m.m20 - m.m10 * m.m22) * invdet
    m11 := (m.m00 * m.m22 - m.m02 * m.m20) * invdet
    m12 := (m.m02 * m.m10 - m.m00 * m.m12) * invdet
    m20 := (m.m10 * m.m21 - m.m11 * m.m20) * invdet
    m21 := (m.m01 * m.m20 - m.m00 * m.m21) * invdet
    m22 := (m.m00 * m.m11 - m.m01 * m.m10) * invdet }

/-- Modelled from the spec: `Eigen::Transform<T, 3, Eigen::Affine>`, an affine map given by
its linear part and its translation. -/
structure Transform (K : Type) where
  linear : Mat3 K
  translation : Vec3 K

/-- Modelled from the spec: `Transform(Eigen::Scaling(sx, sy, sz))`, the diagonal scaling with
no translation. -/
def Transform.Scaling (sx sy sz : K) : Transform K :=
  { linear := ⟨sx, 0, 0, 0, sy, 0, 0, 0, sz⟩, translation := 0 }

/-- Modelled from the spec: `transform * v` for a 3-vector `v` of an affine transform:
`linear * v + translation`. -/
def Transform.apply (t : Transform K) (v : Vec3 K) : Vec3 K :=
  t.linear.mulVec v + t.translation

/-- Modelled from the spec: `Transform::inverse()` in affine mode: the inverse of the linear
part, and the translation `-(linear⁻¹ * translation)`. -/
def Transform.inverse (t : Transform K) : Transform K :=
  let inv := t.linear.inverse
  { linear := inv, translation := -(inv.mulVec t.translation) }

/-- Modelled from the spec: `Eigen::AngleAxis<T>(angle, axis).toRotationMatrix()`.  The
library stores `axis` as given (it documents that the axis must be normalized and does not
normalize it) and builds the matrix `c I + s [axis]ₓ + (1 - c) axis axisᵀ` coefficient by
coefficient. -/
def AngleAxis.toRotationMatrix (cos sin : K → K) (angle : K) (axis : Vec3 K) : Mat3 K :=
  let sin_axis : Vec3 K := sin angle • axis
  let c := cos angle
  let cos1_axis : Vec3 K := (1 - c) • axis
  { m00 := cos1_axis.x * axis.x + c
    m01 := cos1_axis.x * axis.y - sin_axis.z
    m02 := cos1_axis.x * axis.z + sin_axis.y
    m10 := cos1_axis.x * axis.y + sin_axis.z
    m11 := cos1_axis.y * axis.y + c
    m12 := cos1_axis.y * axis.z - sin_axis.x
    m20 := cos1_axis.x * axis.z - sin_axis.y
    m21 := cos1_axis.y * axis.z + sin_axis.x
    m22 := cos1_axis.z * axis.z + c }

/-- Modelled from the spec: `Eigen::AngleAxis<T>(angle, axis) * v`, the rotation matrix
applied to `v`. -/
def AngleAxis.rotate (cos sin : K → K) (angle : K) (axis v : Vec3 K) : Vec3 K :=
  (AngleAxis.toRotationMatrix cos sin angle axis).mulVec v

end Eigen

/-! ## `constants.h` -/

section Constants

variable {K : Type} [LinearOrderedField K]

/-- The constant `constexpr double _2PI_ {6.283185307179586}`. -/
def _2PI_ : K := 6283185307179586 / 1000000000000000

/-- The constant `constexpr double _PI_ {3.141592653589793}`. -/
def _PI_ : K := 3141592653589793 / 1000000000000000

end Constants

/-! ## `shape.h` -/

/-- The data members of `Shape<T, 3>`: the vertex buffer `_vertices` and the normal buffer
`_normals`.  All five shapes derive from `Shape<T, 3>`, so the guard `DIM != 3` of
`rotate3D` never fires. -/
structure Shape (K : Type) where
  vertices : List (Point K)
  normals : List (Vec3 K)

section Shape

variable {K : Type} [LinearOrderedField K]

/-- The member function `Shape::size()`. -/
def Shape.size (s : Shape K) : ℕ := s.vertices.length

/-- The checked access `Shape::operator[](size_t pos)`, which is `_vertices.at(pos)`: `none` stands for the
`std::out_of_range` exception. -/
def Shape.at (s : Shape K) (pos : ℕ) : Option (Point K) := s.vertices[pos]?

/-- The member function `Shape::scale3D(T scale_X, T scale_Y, T scale_Z)`: every vertex is multiplied by the scale
transform, every normal by its inverse and then normalized. -/
def Shape.scale3D (sqrt : K → K) (s : Shape K) (scale_X scale_Y scale_Z : K) : Shape K :=
  let scale_matrix := Transform.Scaling scale_X scale_Y scale_Z
  let vertices := s.vertices.map fun v => scale_matrix.apply v
  let scale_matrix := scale_matrix.inverse
  let normals := s.normals.map fun n => (scale_matrix.apply n).normalize sqrt
  { vertices := vertices, normals := normals }

/-- The member function `Shape::scale3D(T scale)`, which calls the three-argument overload. -/
def Shape.scale3D_uniform (sqrt : K → K) (s : Shape K) (scale : K) : Shape K :=
  s.scale3D sqrt scale scale scale

/-- The member function `Shape::rotate3D(T angle, const Matrix<T,3,1>& axis)` for `DIM = 3`: every vertex and
every normal is multiplied by `AngleAxis(angle, axis)`. -/
def Shape.rotate3D (cos sin : K → K) (s : Shape K) (angle : K) (axis : Vec3 K) : Shape K :=
  { vertices := s.vertices.map fun v => AngleAxis.rotate cos sin angle axis v
    normals := s.normals.map fun n => AngleAxis.rotate cos sin angle axis n }

end Shape

/-! ## `Shapes2D/rectangle.h` -/

/-- The class `Rectangle<T>`: the inherited buffers and the members `_width`, `_height`,
`_center`. -/
structure Rectangle (K : Type) extends Shape K where
  _width : K
  _height : K
  _center : Point K

section Rectangle

variable {K : Type} [LinearOrderedField K]

/-- The constructor `Rectangle(T width, T height, Point<T,3> center)`.

The constructor writes all three coordinates of the four vertices, but only coefficients
`[0]` and `[1]` of each normal.  `_normals.resize(4)` default-constructs
`Eigen::Matrix<T,3,1>` objects, whose coefficients the library leaves uninitialized, so
coefficient `[2]` of normal `i` keeps whatever its storage held: that value is the argument
`uninit i`. -/
def Rectangle.new (width height : K) (center : Point K) (uninit : ℕ → K) : Rectangle K :=
  { vertices :=
      [ ⟨center.x - width / 2, center.y - height / 2, center.z⟩,
        ⟨center.x + width / 2, center.y - height / 2, center.z⟩,
        ⟨center.x + width / 2, center.y + height / 2, center.z⟩,
        ⟨center.x - width / 2, center.x + height / 2, center.z⟩ ]
    normals :=
      [ ⟨0, -1, uninit 0⟩,
        ⟨1, 0, uninit 1⟩,
        ⟨0, 1, uninit 2⟩,
        ⟨-1, 0, uninit 3⟩ ]
    _width := width
    _height := height
    _center := center }

/-- The constructor `Rectangle(T width, T height)`: centered at `Point<T,3>()`. -/
def Rectangle.new_origin (width height : K) (uninit : ℕ → K) : Rectangle K :=
  Rectangle.new width height 0 uninit

/-- The member function `Rectangle::rotate3D`: the base-class rotation, then the stored center. -/
def Rectangle.rotate3D (cos sin : K → K) (r : Rectangle K) (angle : K) (axis : Vec3 K) :
    Rectangle K :=
  { r with
    toShape := r.toShape.rotate3D cos sin angle axis
    _center := AngleAxis.rotate cos sin angle axis r._center }

end Rectangle

/-! ## `Shapes2D/circle.h` -/

/-- The class `Circle<T>`: the inherited buffers and the members `_radius`, `_center`. -/
structure Circle (K : Type) extends Shape K where
  _radius : K
  _center : Point K

section Circle

variable {K : Type} [LinearOrderedField K]

/-- The normal that the loop body of the `Circle` constructor writes at index `i`:
`(cos(delta_angle * i), sin(delta_angle * i), 0.0)`. -/
def Circle.normal (cos sin : K → K) (delta_angle : K) (i : ℕ) : Vec3 K :=
  ⟨cos (delta_angle * (i : K)), sin (delta_angle * (i : K)), 0⟩

/-- The constructor `Circle(T radius, Point<T,3> center, size_t num_vertices)`: with
`delta_angle = _2PI_ / num_vertices`, entry `i` of the normals is `Circle.normal` and entry `i`
of the vertices is `center + radius * normals[i]`. -/
def Circle.new (cos sin : K → K) (radius : K) (center : Point K) (num_vertices : ℕ) :
    Circle K :=
  let delta_angle : K := _2PI_ / (num_vertices : K)
  { vertices :=
      (List.range num_vertices).map fun (i : ℕ) =>
        center + radius • Circle.normal cos sin delta_angle i
    normals := (List.range num_vertices).map fun (i : ℕ) => Circle.normal cos sin delta_angle i
    _radius := radius
    _center := center }

/-- The member function `Circle::rotate3D`: the base-class rotation, then the stored center. -/
def Circle.rotate3D (cos sin : K → K) (c : Circle K) (angle : K) (axis : Vec3 K) : Circle K :=
  { c with
    toShape := c.toShape.rotate3D cos sin angle axis
    _center := AngleAxis.rotate cos sin angle axis c._center }

end Circle

/-! ## `Shapes3D/cone.h` -/

/-- The class `Cone<T>`: the inherited buffers and the members `_radius`, `_height`,
`_base_center`. -/
structure Cone (K : Type) extends Shape K where
  _radius : K
  _height : K
  _base_center : Point K

section Cone

variable {K : Type} [LinearOrderedField K]

/-- The constructor
`Cone(T radius, T height, const Point<T,3>& base_center, size_t base_num_vertices)`.
The first `base_num_vertices` vertices are copied from the base circle with the checked
`base[i]` (always in range, since `base.size() = base_num_vertices`), the last one is the tip;
the rim normals are `xy_comp * (AngleAxis(i * delta_angle, UnitZ) * UnitX) + z_comp * UnitZ`
and the last normal is `UnitZ`. -/
def Cone.new (cos sin sqrt : K → K) (radius height : K) (base_center : Point K)
    (base_num_vertices : ℕ) : Cone K :=
  let base := Circle.new cos sin radius base_center base_num_vertices
  let tip : Point K := ⟨base_center.x, base_center.y, base_center.z + height⟩
  let xy_comp : K := 1 / sqrt (1 + radius * radius / height / height)
  let z_comp : K := radius / height * xy_comp
  let delta_angle : K := _2PI_ / (base_num_vertices : K)
  { vertices :=
      ((List.range base_num_vertices).map fun (i : ℕ) => (base.toShape.at i).getD 0) ++ [tip]
    normals :=
      ((List.range base_num_vertices).map fun (i : ℕ) =>
        xy_comp • AngleAxis.rotate cos sin ((i : K) * delta_angle) Vec3.UnitZ Vec3.UnitX
          + z_comp • Vec3.UnitZ) ++ [Vec3.UnitZ]
    _radius := radius
    _height := height
    _base_center := base_center }

/-- The member function `Cone::rotate3D`: the base-class rotation, then the stored base center. -/
def Cone.rotate3D (cos sin : K → K) (c : Cone K) (angle : K) (axis : Vec3 K) : Cone K :=
  { c with
    toShape := c.toShape.rotate3D cos sin angle axis
    _base_center := AngleAxis.rotate cos sin angle axis c._base_center }

end Cone

/-! ## `Shapes3D/cylinder.h` -/

/-- The class `Cylinder<T>`: the inherited buffers and the members `_radius`, `_height`,
`_base_center`, `_top_center`, `_base_normal`, `_top_normal`. -/
structure Cylinder (K : Type) extends Shape K where
  _radius : K
  _height : K
  _base_center : Point K
  _top_center : Point K
  _base_normal : Vec3 K
  _top_normal : Vec3 K

section Cylinder

variable {K : Type} [LinearOrderedField K]

/-- The constructor
`Cylinder(T radius, T height, Point<T,3> base_center, size_t base_num_vertices)`: the
buffers have `base.size() + top.size()` entries; for `i < base.size()` entry `i` is copied
from the base circle and entry `base.size() + i` from the top circle. -/
def Cylinder.new (cos sin : K → K) (radius height : K) (base_center : Point K)
    (base_num_vertices : ℕ) : Cylinder K :=
  let top_center : Point K := ⟨base_center.x, base_center.y, base_center.z + height⟩
  let base := Circle.new cos sin radius base_center base_num_vertices
  let top := Circle.new cos sin radius top_center base_num_vertices
  { vertices :=
      ((List.range base.size).map fun (i : ℕ) => (base.toShape.at i).getD 0)
        ++ ((List.range base.size).map fun (i : ℕ) => (top.toShape.at i).getD 0)
    normals :=
      ((List.range base.size).map fun (i : ℕ) => base.normals.getD i 0)
        ++ ((List.range base.size).map fun (i : ℕ) => top.normals.getD i 0)
    _radius := radius
    _height := height
    _base_center := base_center
    _top_center := top_center
    _base_normal := -Vec3.UnitZ
    _top_normal := Vec3.UnitZ }

/-- The member function `Cylinder::rotate3D`: the base-class rotation, then both centers and both face normals. -/
def Cylinder.rotate3D (cos sin : K → K) (c : Cylinder K) (angle : K) (axis : Vec3 K) :
    Cylinder K :=
  { c with
    toShape := c.toShape.rotate3D cos sin angle axis
    _base_center := AngleAxis.rotate cos sin angle axis c._base_center
    _top_center := AngleAxis.rotate cos sin angle axis c._top_center
    _base_normal := AngleAxis.rotate cos sin angle axis c._base_normal
    _top_normal := AngleAxis.rotate cos sin angle axis c._top_normal }

end Cylinder

/-! ## `Shapes3D/cuboid.h` -/

/-- The class `Cuboid<T>`: the inherited buffers and the members `_width`, `_height`,
`_depth`, `_center`. -/
structure Cuboid (K : Type) extends Shape K where
  _width : K
  _height : K
  _depth : K
  _center : Point K

section Cuboid

variable {K : Type} [LinearOrderedField K]

/-- The constructor `Cuboid(T width, T height, T depth, Point<T,3> center)`: vertices `i` and `i + 4`
(`i < 4`) are vertex `i` of the rectangles `bottom` and `up`; the six normals are
`(0, 0, -1)`, the four normals of `bottom`, and `(0, 0, 1)`.  The arguments `uninit_bottom`
and `uninit_up` are the never-written coefficients of the normals of the two rectangles (see
`Rectangle.new`). -/
def Cuboid.new (width height depth : K) (center : Point K) (uninit_bottom uninit_up : ℕ → K) :
    Cuboid K :=
  let bottom := Rectangle.new width depth ⟨center.x, center.y, center.z - height / 2⟩
    uninit_bottom
  let up := Rectangle.new width depth ⟨center.x, center.y, center.z + height / 2⟩ uninit_up
  { vertices :=
      ((List.range 4).map fun (i : ℕ) => bottom.vertices.getD i 0)
        ++ ((List.range 4).map fun (i : ℕ) => up.vertices.getD i 0)
    normals :=
      [⟨0, 0, -1⟩] ++ ((List.range 4).map fun (i : ℕ) => bottom.normals.getD i 0) ++ [⟨0, 0, 1⟩]
    _width := width
    _height := height
    _depth := depth
    _center := center }

/-- The member function `Cuboid::rotate3D`: the base-class rotation, then the stored center. -/
def Cuboid.rotate3D (cos sin : K → K) (c : Cuboid K) (angle : K) (axis : Vec3 K) : Cuboid K :=
  { c with
    toShape := c.toShape.rotate3D cos sin angle axis
    _center := AngleAxis.rotate cos sin angle axis c._center }

end Cuboid

/-! ## Sequences of calls -/

/-- A call of one of the two mutators of `Shape<T, 3>`. -/
inductive Call (K : Type) where
  | scale3D (scale_X scale_Y scale_Z : K)
  | rotate3D (angle : K) (axis : Vec3 K)

section Calls

variable {K : Type} [LinearOrderedField K]

/-- The effect of one call on the buffers. -/
def Shape.call (cos sin sqrt : K → K) (s : Shape K) : Call K → Shape K
  | .scale3D sx sy sz => s.scale3D sqrt sx sy sz
  | .rotate3D angle axis => s.rotate3D cos sin angle axis

/-- The effect of a sequence of calls, first call first. -/
def Shape.calls (cos sin sqrt : K → K) (s : Shape K) (cs : List (Call K)) : Shape K :=
  cs.foldl (Shape.call cos sin sqrt) s

end Calls

/-! ## Cylinder: sequences of rotations -/

section CylinderCalls

variable {K : Type} [LinearOrderedField K]

/-- The state of a cylinder after a sequence of `Cylinder::rotate3D(angle, axis)` calls, first
call first; each entry of the list is the pair `(angle, axis)` of one call. -/
def Cylinder.rotations (cos sin : K → K) (c : Cylinder K) (calls : List (K × Vec3 K)) :
    Cylinder K :=
  calls.foldl (fun (t : Cylinder K) (a : K × Vec3 K) => t.rotate3D cos sin a.1 a.2) c

/-- The relation between the buffers of a cylinder with `n` base vertices and its stored
members: the base normal is the opposite of the top normal, the top center is the base center
moved by `height * top_normal`, and every top vertex is its base vertex moved by the same
vector. -/
def Cylinder.Aligned (c : Cylinder K) (n : ℕ) : Prop :=
  c._base_normal = -c._top_normal ∧
  c._top_center - c._base_center = c._height • c._top_normal ∧
  ∀ i, i < n → ∃ a b : Vec3 K,
    c.vertices[i]? = some a ∧ c.vertices[n + i]? = some b ∧
      b - a = c._top_center - c._base_center

end CylinderCalls

/-! ## `cartesian_cs_3d.h` and `transformations.h` -/

/-- The exceptions thrown by the library: `std::invalid_argument` and `std::out_of_range`,
with their message. -/
inductive Error where
  | invalid_argument (what : String)
  | out_of_range (what : String)
deriving DecidableEq

/-- Modelled from the spec: `Eigen::Matrix<T, 4, 1>`, a homogeneous vector. -/
structure Vec4 (K : Type) where
  x : K
  y : K
  z : K
  w : K
deriving DecidableEq

/-- Modelled from the spec: `Eigen::Matrix<T, 4, 4>`, given by its four rows (the comma
initializer `<<` of the library fills a matrix row by row). -/
structure Mat4 (K : Type) where
  row0 : Vec4 K
  row1 : Vec4 K
  row2 : Vec4 K
  row3 : Vec4 K
deriving DecidableEq

section Frames

variable {K : Type} [LinearOrderedField K]

/-- Modelled from the spec: `a.cross(b)` of the external library. -/
def Vec3.cross (a b : Vec3 K) : Vec3 K :=
  ⟨a.y * b.z - a.z * b.y, a.z * b.x - a.x * b.z, a.x * b.y - a.y * b.x⟩

/-- Modelled from the spec: `a.normalized()` of the external library, the copy of `a` that
`normalize()` would leave. -/
def Vec3.normalized (sqrt : K → K) (a : Vec3 K) : Vec3 K := a.normalize sqrt

/-- Product of a 4x4 matrix and a homogeneous vector. -/
def Mat4.mulVec (m : Mat4 K) (v : Vec4 K) : Vec4 K :=
  ⟨m.row0.x * v.x + m.row0.y * v.y + m.row0.z * v.z + m.row0.w * v.w,
   m.row1.x * v.x + m.row1.y * v.y + m.row1.z * v.z + m.row1.w * v.w,
   m.row2.x * v.x + m.row2.y * v.y + m.row2.z * v.z + m.row2.w * v.w,
   m.row3.x * v.x + m.row3.y * v.y + m.row3.z * v.z + m.row3.w * v.w⟩

/-- The upper-left 3x3 block of a 4x4 matrix (the rotation block of a rigid transform). -/
def Mat4.rotationBlock (m : Mat4 K) : Mat3 K :=
  ⟨m.row0.x, m.row0.y, m.row0.z,
   m.row1.x, m.row1.y, m.row1.z,
   m.row2.x, m.row2.y, m.row2.z⟩

/-- The fourth column of a 4x4 matrix without its last entry (the translation of a rigid
transform). -/
def Mat4.translationColumn (m : Mat4 K) : Vec3 K := ⟨m.row0.w, m.row1.w, m.row2.w⟩

/-- Transpose of a 3x3 matrix. -/
def Mat3.transpose (m : Mat3 K) : Mat3 K :=
  ⟨m.m00, m.m10, m.m20, m.m01, m.m11, m.m21, m.m02, m.m12, m.m22⟩

/-- Product of two 3x3 matrices. -/
def Mat3.mul (a b : Mat3 K) : Mat3 K :=
  ⟨a.m00 * b.m00 + a.m01 * b.m10 + a.m02 * b.m20,
   a.m00 * b.m01 + a.m01 * b.m11 + a.m02 * b.m21,
   a.m00 * b.m02 + a.m01 * b.m12 + a.m02 * b.m22,
   a.m10 * b.m00 + a.m11 * b.m10 + a.m12 * b.m20,
   a.m10 * b.m01 + a.m11 * b.m11 + a.m12 * b.m21,
   a.m10 * b.m02 + a.m11 * b.m12 + a.m12 * b.m22,
   a.m20 * b.m00 + a.m21 * b.m10 + a.m22 * b.m20,
   a.m20 * b.m01 + a.m21 * b.m11 + a.m22 * b.m21,
   a.m20 * b.m02 + a.m21 * b.m12 + a.m22 * b.m22⟩

/-- The 3x3 identity matrix. -/
def Mat3.identity : Mat3 K := ⟨1, 0, 0, 0, 1, 0, 0, 0, 1⟩

/-- The class `CartesianCS_3D<T>`: the three axes of `_axis`, the center `_center` and the
stored matrix `transf_matrix`. -/
structure CartesianCS_3D (K : Type) where
  _axis_0 : Vec3 K
  _axis_1 : Vec3 K
  _axis_2 : Vec3 K
  _center : Vec3 K
  transf_matrix : Mat4 K

/-- The constructor `CartesianCS_3D(center, axis_1, axis_2)`.  The argument `epsilon` is
`std::numeric_limits<T>::epsilon()`, which `<limits>` supplies; `abs` is the absolute value.
The two vectors are normalized, the constructor throws `std::invalid_argument` when the
absolute value of their dot product is above `10 * epsilon`, and otherwise the third axis is
their cross product and the matrix has the rows `(axis_i, -axis_i . center)` and
`(0, 0, 0, 1)`. -/
def CartesianCS_3D.new (sqrt : K → K) (epsilon : K) (center axis_1 axis_2 : Vec3 K) :
    Except Error (CartesianCS_3D K) :=
  let a0 := axis_1.normalized sqrt
  let a1 := axis_2.normalized sqrt
  if |a0.dot a1| > 10 * epsilon then
    .error (.invalid_argument "Axis vectors must be orthogonal.")
  else
    let a2 := a0.cross a1
    .ok
      { _axis_0 := a0
        _axis_1 := a1
        _axis_2 := a2
        _center := center
        transf_matrix :=
          ⟨⟨a0.x, a0.y, a0.z, -(a0.dot center)⟩,
           ⟨a1.x, a1.y, a1.z, -(a1.dot center)⟩,
           ⟨a2.x, a2.y, a2.z, -(a2.dot center)⟩,
           ⟨0, 0, 0, 1⟩⟩ }

/-- The member function `transformMatrix()`, which returns the stored matrix. -/
def CartesianCS_3D.transformMatrix (cs : CartesianCS_3D K) : Mat4 K := cs.transf_matrix

/-- The static member function `transformMatrix(position, look_at, vertical)`: it builds
`newZ`, `newX`, `newY` and returns the matrix of `CartesianCS_3D(position, newX, newY)`; an
exception of that constructor propagates. -/
def CartesianCS_3D.transformMatrix_static (sqrt : K → K) (epsilon : K)
    (position look_at vertical : Vec3 K) : Except Error (Mat4 K) :=
  let newZ := (position - look_at).normalize sqrt
  let newX := (vertical.cross newZ).normalize sqrt
  let newY := newZ.cross newX
  match CartesianCS_3D.new sqrt epsilon position newX newY with
  | .error e => .error e
  | .ok cs => .ok cs.transformMatrix

/-- The function `orthoProjection(left, right, bottom, top, near, far)` of
`transformations.h`. -/
def orthoProjection (left right bottom top near far : K) : Mat4 K :=
  ⟨⟨2 / (right - left), 0, 0, -(right + left) / (right - left)⟩,
   ⟨0, 2 / (top - bottom), 0, -(top + bottom) / (top - bottom)⟩,
   ⟨0, 0, -1 / (far - near), -near / (far - near)⟩,
   ⟨0, 0, 0, 1⟩⟩

/-- The function `perspectiveProjection(field_angle, field_ratio, near, far)` of
`transformations.h`; `tan` is the function of `<cmath>`.  It throws `std::invalid_argument`
when `field_ratio < 1`. -/
def perspectiveProjection (tan : K → K) (field_angle field_ratio near far : K) :
    Except Error (Mat4 K) :=
  if field_ratio < 1 then
    .error (.invalid_argument "Field of view ratio must be grater than 1.")
  else
    let tan_half_field := tan (field_angle / 2)
    .ok
      ⟨⟨1 / (field_ratio * tan_half_field), 0, 0, 0⟩,
       ⟨0, 1 / tan_half_field, 0, 0⟩,
       ⟨0, 0, -far / (far - near), -near * far / (far - near)⟩,
       ⟨0, 0, -1, 0⟩⟩

end Frames

/-! ## `point.h`: the constructor from a range -/

section PointRange

variable {K : Type} [LinearOrderedField K]

/-- The default constructor `Point()` of `Point<T, DIM>`: `DIM` coordinates, all `0.0`. -/
def Point.zeros (DIM : ℕ) : List K := List.replicate DIM 0

/-- The loop of `Point(InputIterator first, InputIterator last)`: for every element of the
range it executes `(*this)[pos++] = *first`, where `pos` is a `uint8_t` (so `pos++` wraps at
256).  The loop has no test of `pos` against `DIM`.  The write `(*this)[pos]` is the
`operator[]` of `Eigen::Matrix<T, DIM, 1>`, which asserts `pos < DIM`; a write outside the
`DIM` coordinates has no defined result (assertion failure, or a write outside the object when
assertions are compiled out) and is `none` here. -/
def Point.fromRange.loop (DIM : ℕ) : ℕ → List K → List K → Option (List K)
  | _, [], coords => some coords
  | pos, x :: rest, coords =>
    if pos < DIM then
      Point.fromRange.loop DIM ((pos + 1) % 256) rest (coords.set pos x)
    else
      none

/-- The constructor `Point(InputIterator first, InputIterator last)` of `Point<T, DIM>`, on the
sequence `xs` that the range yields: it starts from `Point()` and from `pos = 0`. -/
def Point.fromRange (DIM : ℕ) (xs : List K) : Option (List K) :=
  Point.fromRange.loop DIM 0 xs (Point.zeros DIM)

end PointRange

/-! ## Basic facts about vectors and buffers -/

section Lemmas

variable {K : Type} [LinearOrderedField K]

@[simp]
theorem Vec3.add_def (a b : Vec3 K) : a + b = ⟨a.x + b.x, a.y + b.y, a.z + b.z⟩ := rfl

@[simp]
theorem Vec3.smul_def (k : K) (a : Vec3 K) : k • a = ⟨k * a.x, k * a.y, k * a.z⟩ := rfl

@[simp]
theorem Vec3.neg_def (a : Vec3 K) : -a = ⟨-a.x, -a.y, -a.z⟩ := rfl

@[simp]
theorem Vec3.zero_def : (0 : Vec3 K) = ⟨0, 0, 0⟩ := rfl

/-- Entry `i < n` of a buffer filled by a loop over `0 .. n-1`. -/
theorem getElem?_range_map {α : Type} (f : ℕ → α) {n i : ℕ} (h : i < n) :
    ((List.range n).map f)[i]? = some (f i) := by
  simp [List.getElem?_range h]

/-- The checked access into a freshly built circle succeeds for every index below the number
of vertices. -/
theorem Circle.at_new (cos sin : K → K) (radius : K) (center : Point K) {n i : ℕ} (h : i < n) :
    (Circle.new cos sin radius center n).toShape.at i
      = some (center + radius • Circle.normal cos sin (_2PI_ / (n : K)) i) := by
  simp [Circle.new, Shape.at, List.getElem?_range h]

/-- The vertex buffer of a rectangle, as the constructor writes it. -/
theorem Rectangle_vertices_new (width height : K) (center : Point K) (uninit : ℕ → K) :
    (Rectangle.new width height center uninit).vertices =
      [ ⟨center.x - width / 2, center.y - height / 2, center.z⟩,
        ⟨center.x + width / 2, center.y - height / 2, center.z⟩,
        ⟨center.x + width / 2, center.y + height / 2, center.z⟩,
        ⟨center.x - width / 2, center.x + height / 2, center.z⟩ ] := rfl

/-- The vertex buffer of a cuboid, as the constructor fills it from the two rectangles. -/
theorem Cuboid_vertices_new (width height depth : K) (center : Point K)
    (uninit_bottom uninit_up : ℕ → K) :
    (Cuboid.new width height depth center uninit_bottom uninit_up).vertices =
      [ ⟨center.x - width / 2, center.y - depth / 2, center.z - height / 2⟩,
        ⟨center.x + width / 2, center.y - depth / 2, center.z - height / 2⟩,
        ⟨center.x + width / 2, center.y + depth / 2, center.z - height / 2⟩,
        ⟨center.x - width / 2, center.x + depth / 2, center.z - height / 2⟩,
        ⟨center.x - width / 2, center.y - depth / 2, center.z + height / 2⟩,
        ⟨center.x + width / 2, center.y - depth / 2, center.z + height / 2⟩,
        ⟨center.x + width / 2, center.y + depth / 2, center.z + height / 2⟩,
        ⟨center.x - width / 2, center.x + depth / 2, center.z + height / 2⟩ ] := rfl

end Lemmas

/-! ## Rectangle -/

/-- C1 (the code departs from the claim): for `Rectangle(2, 4, (1, 0, 0))` the fourth vertex
is `(0, 3, 0)`, because its Y coordinate is computed from `center.x()`; the top-left corner
`(c.x - w/2, c.y + h/2, c.z)` of the claim is `(0, 2, 0)`. -/
theorem Rectangle_top_left_uses_center_x :
    (Rectangle.new (2 : ℚ) 4 ⟨1, 0, 0⟩ (fun _ => 0)).vertices
        = [⟨0, -2, 0⟩, ⟨2, -2, 0⟩, ⟨2, 2, 0⟩, ⟨0, 3, 0⟩] ∧
      (Rectangle.new (2 : ℚ) 4 ⟨1, 0, 0⟩ (fun _ => 0)).vertices[3]?
        ≠ some ⟨1 - 2 / 2, 0 + 4 / 2, 0⟩ := by
  constructor
  · norm_num [Rectangle.new]
  · norm_num [Rectangle.new]

/-! ## Circle, Cylinder, Cone -/

/-- C2: `Circle(r, c, n)` has `n` vertices and `n` normals; for `i < n`, with
`theta_i = i * (_2PI_ / n)`, normal `i` is `(cos theta_i, sin theta_i, 0)` and vertex `i` is
`c + r * normal i`; for `n ≥ 1` vertex `0` is `c + (r, 0, 0)`.  Here `2*pi` is the constant
`_2PI_` of `constants.h` and `cos`, `sin` are the real functions. -/
theorem Circle_vertices_and_normals (radius : ℝ) (center : Point ℝ) (n : ℕ) :
    (Circle.new Real.cos Real.sin radius center n).vertices.length = n ∧
    (Circle.new Real.cos Real.sin radius center n).normals.length = n ∧
    (∀ i, i < n →
      (Circle.new Real.cos Real.sin radius center n).normals[i]?
          = some ⟨Real.cos ((i : ℝ) * (_2PI_ / (n : ℝ))),
              Real.sin ((i : ℝ) * (_2PI_ / (n : ℝ))), 0⟩ ∧
        (Circle.new Real.cos Real.sin radius center n).vertices[i]?
          = some (center + radius • (⟨Real.cos ((i : ℝ) * (_2PI_ / (n : ℝ))),
              Real.sin ((i : ℝ) * (_2PI_ / (n : ℝ))), 0⟩ : Vec3 ℝ))) ∧
    (1 ≤ n →
      (Circle.new Real.cos Real.sin radius center n).vertices[0]?
        = some (center + (⟨radius, 0, 0⟩ : Vec3 ℝ))) := by
  refine ⟨by simp [Circle.new], by simp [Circle.new], ?_, ?_⟩
  · intro i hi
    simp [Circle.new, Circle.normal, List.getElem?_range hi, mul_comm]
  · intro hn
    have h0 : 0 < n := hn
    simp [Circle.new, Circle.normal, List.getElem?_range h0]

/-- Witness for C2: the unit circle with four vertices starts at `(1, 0, 0)`. -/
theorem Circle_vertices_and_normals_witness :
    (Circle.new Real.cos Real.sin 1 ⟨0, 0, 0⟩ 4).vertices[0]? = some ⟨1, 0, 0⟩ := by
  have h := (Circle_vertices_and_normals 1 ⟨0, 0, 0⟩ 4).2.2.2 (by decide)
  simpa using h

section Generic

variable {K : Type} [LinearOrderedField K]

/-- C3: `Cylinder(r, h, c, n)` has `2n` vertices and `2n` normals; for `i < n` vertex `i` is
vertex `i` of `Circle(r, c, n)`, vertex `n + i` is vertex `i` translated by `(0, 0, h)`, and
normals `i` and `n + i` are both the radial direction `(cos theta_i, sin theta_i, 0)`. -/
theorem Cylinder_vertices_and_normals (cos sin : K → K) (radius height : K)
    (base_center : Point K) (n : ℕ) :
    (Cylinder.new cos sin radius height base_center n).vertices.length = 2 * n ∧
    (Cylinder.new cos sin radius height base_center n).normals.length = 2 * n ∧
    ∀ i, i < n → ∃ v nrm : Vec3 K,
      (Circle.new cos sin radius base_center n).vertices[i]? = some v ∧
      (Cylinder.new cos sin radius height base_center n).vertices[i]? = some v ∧
      (Cylinder.new cos sin radius height base_center n).vertices[n + i]?
        = some (v + ⟨0, 0, height⟩) ∧
      nrm = ⟨cos ((i : K) * (_2PI_ / (n : K))), sin ((i : K) * (_2PI_ / (n : K))), 0⟩ ∧
      (Cylinder.new cos sin radius height base_center n).normals[i]? = some nrm ∧
      (Cylinder.new cos sin radius height base_center n).normals[n + i]? = some nrm := by
  have hsize : ∀ c : Point K, (Circle.new cos sin radius c n).size = n := by
    intro c; simp [Circle.new, Shape.size]
  refine ⟨by simp [Cylinder.new, hsize]; ring, by simp [Cylinder.new, hsize]; ring, ?_⟩
  intro i hi
  refine ⟨base_center + radius • Circle.normal cos sin (_2PI_ / (n : K)) i, _,
    ?_, ?_, ?_, rfl, ?_, ?_⟩
  · exact Circle.at_new cos sin radius base_center hi
  · simp only [Cylinder.new, hsize]
    rw [List.getElem?_append_left (by simpa using hi), getElem?_range_map _ hi,
      Circle.at_new cos sin radius base_center hi]
    rfl
  · simp only [Cylinder.new, hsize]
    rw [List.getElem?_append_right (by simp), getElem?_range_map _ (by simpa using hi)]
    simp only [List.length_map, List.length_range, Nat.add_sub_cancel_left]
    rw [Circle.at_new cos sin radius _ hi]
    simp [Circle.normal, add_right_comm]
  · simp only [Cylinder.new, hsize]
    rw [List.getElem?_append_left (by simpa using hi), getElem?_range_map _ hi]
    simp [Circle.new, Circle.normal, List.getD_eq_getElem?_getD, List.getElem?_range hi,
      mul_comm]
  · simp only [Cylinder.new, hsize]
    rw [List.getElem?_append_right (by simp), getElem?_range_map _ (by simpa using hi)]
    simp [Circle.new, Circle.normal, List.getD_eq_getElem?_getD, List.getElem?_range hi,
      mul_comm]

/-- C4: `Cone(r, h, c, n)` has `n + 1` vertices and `n + 1` normals; for `i < n` vertex `i` is
vertex `i` of `Circle(r, c, n)`; vertex `n` is the apex `(c.x, c.y, c.z + h)`; normal `n` is
`(0, 0, 1)`. -/
theorem Cone_vertices_and_apex (cos sin sqrt : K → K) (radius height : K)
    (base_center : Point K) (n : ℕ) :
    (Cone.new cos sin sqrt radius height base_center n).vertices.length = n + 1 ∧
    (Cone.new cos sin sqrt radius height base_center n).normals.length = n + 1 ∧
    (∀ i, i < n → ∃ v : Vec3 K,
      (Circle.new cos sin radius base_center n).vertices[i]? = some v ∧
      (Cone.new cos sin sqrt radius height base_center n).vertices[i]? = some v) ∧
    (Cone.new cos sin sqrt radius height base_center n).vertices[n]?
      = some ⟨base_center.x, base_center.y, base_center.z + height⟩ ∧
    (Cone.new cos sin sqrt radius height base_center n).normals[n]? = some ⟨0, 0, 1⟩ := by
  refine ⟨by simp [Cone.new], by simp [Cone.new], ?_, ?_, ?_⟩
  · intro i hi
    refine ⟨base_center + radius • Circle.normal cos sin (_2PI_ / (n : K)) i, ?_, ?_⟩
    · exact Circle.at_new cos sin radius base_center hi
    · simp only [Cone.new]
      rw [List.getElem?_append_left (by simpa using hi), getElem?_range_map _ hi,
        Circle.at_new cos sin radius base_center hi]
      rfl
  · simp only [Cone.new]
    rw [List.getElem?_append_right (by simp)]
    simp
  · simp only [Cone.new]
    rw [List.getElem?_append_right (by simp)]
    simp [Vec3.UnitZ]

/-- C5: `Cuboid(w, h, d, c)` has 8 vertices; for `i < 4` vertex `i` is vertex `i` of
`Rectangle(w, d, (c.x, c.y, c.z - h/2))`, with Z coordinate `c.z - h/2`, and vertex `i + 4` is
vertex `i` translated by `(0, 0, h)`, with Z coordinate `c.z + h/2`. -/
theorem Cuboid_vertices (width height depth : K) (center : Point K)
    (uninit uninit_bottom uninit_up : ℕ → K) :
    (Cuboid.new width height depth center uninit_bottom uninit_up).vertices.length = 8 ∧
    ∀ i, i < 4 → ∃ v : Vec3 K,
      (Rectangle.new width depth ⟨center.x, center.y, center.z - height / 2⟩ uninit).vertices[i]?
        = some v ∧
      (Cuboid.new width height depth center uninit_bottom uninit_up).vertices[i]? = some v ∧
      v.z = center.z - height / 2 ∧
      (Cuboid.new width height depth center uninit_bottom uninit_up).vertices[i + 4]?
        = some (v + ⟨0, 0, height⟩) ∧
      (v + ⟨0, 0, height⟩).z = center.z + height / 2 := by
  have hz : center.z - height / 2 + height = center.z + height / 2 := by ring
  rw [Cuboid_vertices_new, Rectangle_vertices_new]
  refine ⟨rfl, ?_⟩
  intro i hi
  interval_cases i
  · exact ⟨_, rfl, rfl, rfl, by simp [hz], by simp [hz]⟩
  · exact ⟨_, rfl, rfl, rfl, by simp [hz], by simp [hz]⟩
  · exact ⟨_, rfl, rfl, rfl, by simp [hz], by simp [hz]⟩
  · exact ⟨_, rfl, rfl, rfl, by simp [hz], by simp [hz]⟩

/-- The normal buffer of a cuboid, as the constructor fills it: the third coefficient of the
four side normals is the never-written coefficient of the normals of the bottom rectangle. -/
theorem Cuboid_normals_new (width height depth : K) (center : Point K)
    (uninit_bottom uninit_up : ℕ → K) :
    (Cuboid.new width height depth center uninit_bottom uninit_up).normals
      = [⟨0, 0, -1⟩, ⟨0, -1, uninit_bottom 0⟩, ⟨1, 0, uninit_bottom 1⟩,
          ⟨0, 1, uninit_bottom 2⟩, ⟨-1, 0, uninit_bottom 3⟩, ⟨0, 0, 1⟩] := rfl

/-- The two mutators keep the lengths of both buffers. -/
theorem Shape.call_lengths (cos sin sqrt : K → K) (s : Shape K) (c : Call K) :
    (s.call cos sin sqrt c).vertices.length = s.vertices.length ∧
      (s.call cos sin sqrt c).normals.length = s.normals.length := by
  cases c <;> simp [Shape.call, Shape.scale3D, Shape.rotate3D]

/-- C7: right after construction a Circle, Rectangle, Cone or Cylinder has as many normals as
vertices, a Cuboid has 8 vertices and 6 normals, and no sequence of `scale3D` and `rotate3D`
calls changes the length of either buffer of a shape. -/
theorem buffer_lengths (cos sin sqrt : K → K) :
    (∀ (r : K) (c : Point K) (n : ℕ),
      (Circle.new cos sin r c n).vertices.length = (Circle.new cos sin r c n).normals.length) ∧
    (∀ (w h : K) (c : Point K) (u : ℕ → K),
      (Rectangle.new w h c u).vertices.length = (Rectangle.new w h c u).normals.length) ∧
    (∀ (r h : K) (c : Point K) (n : ℕ),
      (Cone.new cos sin sqrt r h c n).vertices.length
        = (Cone.new cos sin sqrt r h c n).normals.length) ∧
    (∀ (r h : K) (c : Point K) (n : ℕ),
      (Cylinder.new cos sin r h c n).vertices.length
        = (Cylinder.new cos sin r h c n).normals.length) ∧
    (∀ (w h d : K) (c : Point K) (u u' : ℕ → K),
      (Cuboid.new w h d c u u').vertices.length = 8 ∧
        (Cuboid.new w h d c u u').normals.length = 6) ∧
    (∀ (s : Shape K) (cs : List (Call K)),
      (s.calls cos sin sqrt cs).vertices.length = s.vertices.length ∧
        (s.calls cos sin sqrt cs).normals.length = s.normals.length) := by
  refine ⟨?_, ?_, ?_, ?_, ?_, ?_⟩
  · intro r c n; simp [Circle.new]
  · intro w h c u; rfl
  · intro r h c n; simp [Cone.new]
  · intro r h c n; simp [Cylinder.new]
  · intro w h d c u u'; exact ⟨rfl, rfl⟩
  · intro s cs
    induction cs generalizing s with
    | nil => exact ⟨rfl, rfl⟩
    | cons c cs ih =>
      have h1 := Shape.call_lengths cos sin sqrt s c
      have h2 := ih (s.call cos sin sqrt c)
      simp only [Shape.calls, List.foldl_cons] at h2 ⊢
      exact ⟨h2.1.trans h1.1, h2.2.trans h1.2⟩

/-- The scale transform followed by the transform of the reciprocal factors is the identity
on vectors. -/
theorem Transform.Scaling_inv_apply (sx sy sz : K) (hx : sx ≠ 0) (hy : sy ≠ 0) (hz : sz ≠ 0)
    (v : Vec3 K) :
    (Transform.Scaling (1 / sx) (1 / sy) (1 / sz)).apply ((Transform.Scaling sx sy sz).apply v)
      = v := by
  cases v with
  | mk x y z =>
    simp only [Transform.apply, Transform.Scaling, Mat3.mulVec, Vec3.add_def, Vec3.zero_def,
      Vec3.mk.injEq]
    refine ⟨?_, ?_, ?_⟩ <;> field_simp

/-- C8: for nonzero factors, `scale3D(sx, sy, sz)` followed by `scale3D(1/sx, 1/sy, 1/sz)`
gives back the vertex buffer, and so does `scale3D(s)` followed by `scale3D(1/s)`. -/
theorem scale3D_inverse_restores_vertices (sqrt : K → K) (s : Shape K) (sx sy sz : K)
    (hx : sx ≠ 0) (hy : sy ≠ 0) (hz : sz ≠ 0) :
    ((s.scale3D sqrt sx sy sz).scale3D sqrt (1 / sx) (1 / sy) (1 / sz)).vertices = s.vertices ∧
    ((s.scale3D_uniform sqrt sx).scale3D_uniform sqrt (1 / sx)).vertices = s.vertices := by
  constructor
  · simp only [Shape.scale3D, List.map_map]
    conv_rhs => rw [← List.map_id s.vertices]
    apply List.map_congr_left
    intro v _
    exact Transform.Scaling_inv_apply sx sy sz hx hy hz v
  · simp only [Shape.scale3D_uniform, Shape.scale3D, List.map_map]
    conv_rhs => rw [← List.map_id s.vertices]
    apply List.map_congr_left
    intro v _
    exact Transform.Scaling_inv_apply sx sx sx hx hx hx v

end Generic

/-- Witness for C3: in the cylinder of radius 1 and height 2 over one base vertex, the top
vertex is the base vertex `(1, 0, 0)` moved to `(1, 0, 2)`. -/
theorem Cylinder_vertices_and_normals_witness :
    (Cylinder.new Real.cos Real.sin 1 2 ⟨0, 0, 0⟩ 1).vertices[1 + 0]? = some ⟨1, 0, 2⟩ := by
  obtain ⟨v, nrm, h1, -, h3, -, -, -⟩ :=
    (Cylinder_vertices_and_normals Real.cos Real.sin 1 2 ⟨0, 0, 0⟩ 1).2.2 0 (by decide)
  have hv : v = ⟨1, 0, 0⟩ := by
    simp [Circle.new, Circle.normal] at h1
    exact h1.symm
  rw [h3, hv]
  simp

/-- Witness for C4: the cone of radius 1 and height 3 over two base vertices starts at
`(1, 0, 0)`. -/
theorem Cone_vertices_and_apex_witness :
    (Cone.new Real.cos Real.sin Real.sqrt 1 3 ⟨0, 0, 0⟩ 2).vertices[0]? = some ⟨1, 0, 0⟩ := by
  obtain ⟨v, h1, h2⟩ :=
    (Cone_vertices_and_apex Real.cos Real.sin Real.sqrt 1 3 ⟨0, 0, 0⟩ 2).2.2.1 0 (by decide)
  have hv : v = ⟨1, 0, 0⟩ := by
    simp [Circle.new, Circle.normal] at h1
    exact h1.symm
  rw [h2, hv]

/-- Witness for C5: the unit cube centered at the origin has its first vertex at
`(-1/2, -1/2, -1/2)` and its fifth at `(-1/2, -1/2, 1/2)`. -/
theorem Cuboid_vertices_witness :
    ∃ v : Vec3 ℚ,
      (Cuboid.new (1 : ℚ) 1 1 ⟨0, 0, 0⟩ (fun _ => 0) (fun _ => 0)).vertices[0]? = some v ∧
      v.z = 0 - 1 / 2 ∧
      (Cuboid.new (1 : ℚ) 1 1 ⟨0, 0, 0⟩ (fun _ => 0) (fun _ => 0)).vertices[0 + 4]?
        = some (v + ⟨0, 0, 1⟩) := by
  obtain ⟨v, -, h2, h3, h4, -⟩ :=
    (Cuboid_vertices (1 : ℚ) 1 1 ⟨0, 0, 0⟩ (fun _ => 0) (fun _ => 0) (fun _ => 0)).2 0
      (by decide)
  exact ⟨v, h2, h3, h4⟩

/-- C6 (the code departs from the claim): the constructor of `Rectangle` never writes the
third coefficient of its normals, and `Cuboid` copies them.  When the storage of the bottom
rectangle held `5` there, `Cuboid(1, 1, 1)` has six normals but its second one is
`(0, -1, 5)`, not the unit vector `(0, -1, 0)`. -/
theorem Cuboid_side_normal_third_coefficient :
    (Cuboid.new (1 : ℚ) 1 1 ⟨0, 0, 0⟩ (fun _ => 5) (fun _ => 0)).normals
        = [⟨0, 0, -1⟩, ⟨0, -1, 5⟩, ⟨1, 0, 5⟩, ⟨0, 1, 5⟩, ⟨-1, 0, 5⟩, ⟨0, 0, 1⟩] ∧
      (Cuboid.new (1 : ℚ) 1 1 ⟨0, 0, 0⟩ (fun _ => 5) (fun _ => 0)).normals[1]?
        ≠ some ⟨0, -1, 0⟩ := by
  constructor
  · rfl
  · norm_num [Cuboid_normals_new]

/-- Witness for C8: scaling the unit cube by `(2, 3, 4)` and then by `(1/2, 1/3, 1/4)` gives
back its eight vertices. -/
theorem scale3D_inverse_restores_vertices_witness :
    (((Cuboid.new (1 : ℚ) 1 1 ⟨0, 0, 0⟩ (fun _ => 0) (fun _ => 0)).toShape.scale3D
        (fun x => x) 2 3 4).scale3D (fun x => x) (1 / 2) (1 / 3) (1 / 4)).vertices
      = (Cuboid.new (1 : ℚ) 1 1 ⟨0, 0, 0⟩ (fun _ => 0) (fun _ => 0)).vertices :=
  (scale3D_inverse_restores_vertices (fun x => x)
    (Cuboid.new (1 : ℚ) 1 1 ⟨0, 0, 0⟩ (fun _ => 0) (fun _ => 0)).toShape 2 3 4
    (by norm_num) (by norm_num) (by norm_num)).1

/-! ## Scaling and the normals -/

section InverseScale

variable {K : Type} [LinearOrderedField K]

/-- For nonzero factors the inverse of the scale transform divides each coefficient by the
factor of its axis. -/
theorem Transform.Scaling_inverse_apply (sx sy sz : K) (hx : sx ≠ 0) (hy : sy ≠ 0)
    (hz : sz ≠ 0) (v : Vec3 K) :
    (Transform.Scaling sx sy sz).inverse.apply v = ⟨v.x / sx, v.y / sy, v.z / sz⟩ := by
  cases v with
  | mk x y z =>
    simp only [Transform.apply, Transform.inverse, Transform.Scaling, Mat3.inverse, Mat3.det,
      Mat3.mulVec, Vec3.add_def, Vec3.zero_def, Vec3.neg_def, Vec3.mk.injEq]
    refine ⟨?_, ?_, ?_⟩ <;> field_simp <;> ring

/-- A vector is nonzero exactly when its squared norm is positive. -/
theorem Vec3.squaredNorm_pos {v : Vec3 K} (hv : v ≠ 0) : 0 < v.squaredNorm := by
  cases v with
  | mk x y z =>
    simp only [Vec3.squaredNorm, Vec3.dot]
    have hne : x ≠ 0 ∨ y ≠ 0 ∨ z ≠ 0 := by
      by_contra hcon
      push_neg at hcon
      apply hv
      simp [hcon.1, hcon.2.1, hcon.2.2]
    rcases hne with h | h | h
    · have := mul_self_pos.mpr h
      nlinarith [mul_self_nonneg y, mul_self_nonneg z]
    · have := mul_self_pos.mpr h
      nlinarith [mul_self_nonneg x, mul_self_nonneg z]
    · have := mul_self_pos.mpr h
      nlinarith [mul_self_nonneg x, mul_self_nonneg y]

end InverseScale

/-- Two rotations about the same unit axis compose to the rotation by the sum of the
angles. -/
theorem AngleAxis.rotate_add (axis : Vec3 ℝ) (haxis : axis.squaredNorm = 1) (a b : ℝ)
    (v : Vec3 ℝ) :
    AngleAxis.rotate Real.cos Real.sin a axis (AngleAxis.rotate Real.cos Real.sin b axis v)
      = AngleAxis.rotate Real.cos Real.sin (a + b) axis v := by
  cases axis with
  | mk ax ay az =>
    cases v with
    | mk x y z =>
      simp only [Vec3.squaredNorm, Vec3.dot] at haxis
      simp only [AngleAxis.rotate, AngleAxis.toRotationMatrix, Mat3.mulVec, Vec3.smul_def,
        Real.cos_add, Real.sin_add, Vec3.mk.injEq]
      refine ⟨?_, ?_, ?_⟩
      · linear_combination
          ((1 - Real.cos a) * (1 - Real.cos b) * (ax * x + ay * y + az * z) * ax
            - Real.sin a * Real.sin b * x) * haxis
      · linear_combination
          ((1 - Real.cos a) * (1 - Real.cos b) * (ax * x + ay * y + az * z) * ay
            - Real.sin a * Real.sin b * y) * haxis
      · linear_combination
          ((1 - Real.cos a) * (1 - Real.cos b) * (ax * x + ay * y + az * z) * az
            - Real.sin a * Real.sin b * z) * haxis

/-- The rotation by the angle zero is the identity, for every axis. -/
theorem AngleAxis.rotate_zero (axis v : Vec3 ℝ) :
    AngleAxis.rotate Real.cos Real.sin 0 axis v = v := by
  cases axis; cases v
  simp [AngleAxis.rotate, AngleAxis.toRotationMatrix, Mat3.mulVec]

/-- Rotating `k` times by `a` about a unit axis is rotating once by `k * a`. -/
theorem AngleAxis.rotate_iterate (axis : Vec3 ℝ) (haxis : axis.squaredNorm = 1) (a : ℝ)
    (k : ℕ) (v : Vec3 ℝ) :
    (AngleAxis.rotate Real.cos Real.sin a axis)^[k] v
      = AngleAxis.rotate Real.cos Real.sin ((k : ℝ) * a) axis v := by
  induction k with
  | zero => simp [AngleAxis.rotate_zero]
  | succ k ih =>
    rw [Function.iterate_succ_apply', ih, AngleAxis.rotate_add axis haxis]
    congr 1
    push_cast
    ring

/-- The vertex buffer after `k` calls of `rotate3D` with the same arguments. -/
theorem Shape.rotate3D_iterate_vertices (cos sin : ℝ → ℝ) (angle : ℝ) (axis : Vec3 ℝ) (k : ℕ)
    (s : Shape ℝ) :
    ((fun t : Shape ℝ => t.rotate3D cos sin angle axis)^[k] s).vertices
      = s.vertices.map (AngleAxis.rotate cos sin angle axis)^[k] := by
  induction k generalizing s with
  | zero => simp
  | succ k ih =>
    rw [Function.iterate_succ_apply, ih]
    simp [Shape.rotate3D, List.map_map]

/-- C10 as amended: for every buffer state, every axis of unit length and every `k ≥ 1`,
calling `rotate3D(2π/k, axis)` `k` times in a row gives back the vertex buffer. -/
theorem rotate3D_full_turn (s : Shape ℝ) (axis : Vec3 ℝ) (k : ℕ)
    (haxis : axis.norm Real.sqrt = 1) (hk : 1 ≤ k) :
    ((fun t : Shape ℝ => t.rotate3D Real.cos Real.sin (2 * Real.pi / (k : ℝ)) axis)^[k]
        s).vertices
      = s.vertices := by
  have hsq : axis.squaredNorm = 1 := by
    have h := (Real.sqrt_eq_iff_mul_self_eq_of_pos one_pos).mp haxis
    simpa using h.symm
  have hkne : (k : ℝ) ≠ 0 := by
    have : 0 < k := hk
    exact_mod_cast this.ne'
  rw [Shape.rotate3D_iterate_vertices]
  conv_rhs => rw [← List.map_id s.vertices]
  apply List.map_congr_left
  intro v _
  rw [AngleAxis.rotate_iterate axis hsq]
  have hang : (k : ℝ) * (2 * Real.pi / (k : ℝ)) = 2 * Real.pi := by field_simp
  rw [hang]
  cases axis; cases v
  simp [AngleAxis.rotate, AngleAxis.toRotationMatrix, Mat3.mulVec]

/-- Witness for C10 as amended: four quarter turns about the Z axis give back the eight
vertices of the unit cube. -/
theorem rotate3D_full_turn_witness :
    ((fun t : Shape ℝ =>
        t.rotate3D Real.cos Real.sin (2 * Real.pi / ((4 : ℕ) : ℝ)) ⟨0, 0, 1⟩)^[4]
        (Cuboid.new (1 : ℝ) 1 1 ⟨0, 0, 0⟩ (fun _ => 0) (fun _ => 0)).toShape).vertices
      = (Cuboid.new (1 : ℝ) 1 1 ⟨0, 0, 0⟩ (fun _ => 0) (fun _ => 0)).vertices :=
  rotate3D_full_turn _ ⟨0, 0, 1⟩ 4 (by simp [Vec3.norm, Vec3.squaredNorm, Vec3.dot])
    (by decide)

/-- C10 as stated fails: two calls of `rotate3D(2π/2, axis)` with the axis `(0, 0, 2)`, which
is not of unit length, move the first vertex `(-1/2, -1/2, -1/2)` of the unit cube to
`(-1/2, -1/2, -49/2)`. -/
theorem rotate3D_full_turn_fails_for_non_unit_axis :
    ((fun t : Shape ℝ =>
        t.rotate3D Real.cos Real.sin (2 * Real.pi / ((2 : ℕ) : ℝ)) ⟨0, 0, 2⟩)^[2]
        (Cuboid.new (1 : ℝ) 1 1 ⟨0, 0, 0⟩ (fun _ => 0) (fun _ => 0)).toShape).vertices[0]?
        = some ⟨-1 / 2, -1 / 2, -49 / 2⟩ ∧
      ((fun t : Shape ℝ =>
        t.rotate3D Real.cos Real.sin (2 * Real.pi / ((2 : ℕ) : ℝ)) ⟨0, 0, 2⟩)^[2]
        (Cuboid.new (1 : ℝ) 1 1 ⟨0, 0, 0⟩ (fun _ => 0) (fun _ => 0)).toShape).vertices
        ≠ (Cuboid.new (1 : ℝ) 1 1 ⟨0, 0, 0⟩ (fun _ => 0) (fun _ => 0)).vertices := by
  have hpi : 2 * Real.pi / ((2 : ℕ) : ℝ) = Real.pi := by
    push_cast
    ring
  have h0 :
      ((fun t : Shape ℝ =>
        t.rotate3D Real.cos Real.sin (2 * Real.pi / ((2 : ℕ) : ℝ)) ⟨0, 0, 2⟩)^[2]
        (Cuboid.new (1 : ℝ) 1 1 ⟨0, 0, 0⟩ (fun _ => 0) (fun _ => 0)).toShape).vertices[0]?
        = some ⟨-1 / 2, -1 / 2, -49 / 2⟩ := by
    rw [hpi, Shape.rotate3D_iterate_vertices, Cuboid_vertices_new]
    simp [AngleAxis.rotate, AngleAxis.toRotationMatrix, Mat3.mulVec]
    norm_num
  refine ⟨h0, ?_⟩
  intro h
  rw [h, Cuboid_vertices_new] at h0
  norm_num at h0

/-! ## Rectangle at the origin -/

/-- C18: a `Rectangle(w, h)` centered at the origin has the vertices `(-w/2, -h/2, 0)`,
`(w/2, -h/2, 0)`, `(w/2, h/2, 0)`, `(-w/2, h/2, 0)` in this order; for `w = 2`, `h = 4` they
are `(-1,-2,0)`, `(1,-2,0)`, `(1,2,0)`, `(-1,2,0)`. -/
theorem Rectangle_at_origin_vertices {K : Type} [LinearOrderedField K] (w h : K)
    (uninit : ℕ → K) :
    (Rectangle.new_origin w h uninit).vertices
        = [⟨-w / 2, -h / 2, 0⟩, ⟨w / 2, -h / 2, 0⟩, ⟨w / 2, h / 2, 0⟩, ⟨-w / 2, h / 2, 0⟩] ∧
      (Rectangle.new_origin (2 : K) 4 uninit).vertices
        = [⟨-1, -2, 0⟩, ⟨1, -2, 0⟩, ⟨1, 2, 0⟩, ⟨-1, 2, 0⟩] := by
  constructor
  · simp [Rectangle.new_origin, Rectangle_vertices_new, neg_div]
  · simp only [Rectangle.new_origin, Rectangle_vertices_new, Vec3.zero_def]
    norm_num

/-! ## Projections -/

section Projections

variable {K : Type} [LinearOrderedField K]

/-- The matrix that `perspectiveProjection` returns when `field_ratio < 1` does not hold. -/
theorem perspectiveProjection_ok (tan : K → K) (field_angle field_ratio near far : K)
    (h : ¬ field_ratio < 1) :
    perspectiveProjection tan field_angle field_ratio near far
      = .ok
        ⟨⟨1 / (field_ratio * tan (field_angle / 2)), 0, 0, 0⟩,
         ⟨0, 1 / tan (field_angle / 2), 0, 0⟩,
         ⟨0, 0, -far / (far - near), -near * far / (far - near)⟩,
         ⟨0, 0, -1, 0⟩⟩ := by
  unfold perspectiveProjection
  rw [if_neg h]

/-- The exception that `perspectiveProjection` throws when `field_ratio < 1`. -/
theorem perspectiveProjection_throws (tan : K → K) (field_angle field_ratio near far : K)
    (h : field_ratio < 1) :
    perspectiveProjection tan field_angle field_ratio near far
      = .error (.invalid_argument "Field of view ratio must be grater than 1.") := by
  unfold perspectiveProjection
  rw [if_pos h]

/-- C16: `perspectiveProjection` throws `std::invalid_argument` exactly when
`fieldRatio < 1`; for `fieldRatio ≥ 1`, the value `1` included, it returns a matrix. -/
theorem perspectiveProjection_error_iff (tan : K → K) (field_angle field_ratio near far : K) :
    ((∃ msg, perspectiveProjection tan field_angle field_ratio near far
        = .error (.invalid_argument msg)) ↔ field_ratio < 1) ∧
    (1 ≤ field_ratio →
      ∃ m, perspectiveProjection tan field_angle field_ratio near far = .ok m) ∧
    (∃ m, perspectiveProjection tan field_angle 1 near far = .ok m) := by
  refine ⟨⟨?_, ?_⟩, ?_, ?_⟩
  · rintro ⟨msg, hmsg⟩
    by_contra hr
    rw [perspectiveProjection_ok tan field_angle field_ratio near far hr] at hmsg
    exact absurd hmsg (by simp)
  · intro hr
    exact ⟨_, perspectiveProjection_throws tan field_angle field_ratio near far hr⟩
  · intro hr
    exact ⟨_, perspectiveProjection_ok tan field_angle field_ratio near far (not_lt.mpr hr)⟩
  · exact ⟨_, perspectiveProjection_ok tan field_angle 1 near far (lt_irrefl 1)⟩

/-- C15 as amended: for `fieldRatio ≥ 1` and `0 < near < far` (and `tan(fieldAngle/2) ≠ 0`)
`perspectiveProjection` returns a matrix that maps the center `(0, 0, -near, 1)` of the near
plane to a vector with `W > 0` and `Z / W = 0`. -/
theorem perspectiveProjection_near_center (tan : K → K) (field_angle field_ratio near far : K)
    (_htan : tan (field_angle / 2) ≠ 0) (hratio : 1 ≤ field_ratio) (hnear : 0 < near)
    (hfar : near < far) :
    ∃ m, perspectiveProjection tan field_angle field_ratio near far = .ok m ∧
      0 < (m.mulVec ⟨0, 0, -near, 1⟩).w ∧
      (m.mulVec ⟨0, 0, -near, 1⟩).z / (m.mulVec ⟨0, 0, -near, 1⟩).w = 0 := by
  have hne : far - near ≠ 0 := (sub_pos.mpr hfar).ne'
  refine ⟨_, perspectiveProjection_ok tan field_angle field_ratio near far
    (not_lt.mpr hratio), ?_, ?_⟩
  · simpa [Mat4.mulVec] using hnear
  · have hz : 0 * 0 + 0 * 0 + -far / (far - near) * -near + -near * far / (far - near) * 1
        = (0 : K) := by
      field_simp
      ring
    simp only [Mat4.mulVec, hz, zero_div]

/-- C17 as amended: for `left ≠ right`, `bottom ≠ top`, `near ≠ far` the matrix of
`orthoProjection` maps `(left, bottom, -near, 1)` to `(-1, -1, 0, 1)` and
`(right, top, -far, 1)` to `(1, 1, 1, 1)`: the depth range is `[0, 1]`. -/
theorem orthoProjection_corners (left right bottom top near far : K) (hlr : left ≠ right)
    (hbt : bottom ≠ top) (hnf : near ≠ far) :
    (orthoProjection left right bottom top near far).mulVec ⟨left, bottom, -near, 1⟩
        = ⟨-1, -1, 0, 1⟩ ∧
      (orthoProjection left right bottom top near far).mulVec ⟨right, top, -far, 1⟩
        = ⟨1, 1, 1, 1⟩ := by
  have h1 : right - left ≠ 0 := sub_ne_zero.mpr hlr.symm
  have h2 : top - bottom ≠ 0 := sub_ne_zero.mpr hbt.symm
  have h3 : far - near ≠ 0 := sub_ne_zero.mpr hnf.symm
  constructor
  · simp only [orthoProjection, Mat4.mulVec, Vec4.mk.injEq]
    refine ⟨?_, ?_, ?_, ?_⟩
    · field_simp; ring
    · field_simp; ring
    · field_simp
    · simp
  · simp only [orthoProjection, Mat4.mulVec, Vec4.mk.injEq]
    refine ⟨?_, ?_, ?_, ?_⟩
    · field_simp; ring
    · field_simp; ring
    · field_simp; ring
    · simp

end Projections

/-- Witness for C16: with ratio `3/2` the projection is a matrix. -/
theorem perspectiveProjection_error_iff_witness :
    ∃ m, perspectiveProjection (fun x : ℚ => x) 1 (3 / 2) 1 2 = .ok m :=
  (perspectiveProjection_error_iff (fun x : ℚ => x) 1 (3 / 2) 1 2).2.1 (by norm_num)

/-- C15 as stated fails: with field angle `π/2`, ratio `1`, `near = 1`, `far = 2` the center
`(0, 0, -1, 1)` of the near plane is mapped to `(0, 0, 0, 1)`, so `Z / W` is `0` and not
`-1`. -/
theorem perspectiveProjection_near_center_is_zero :
    ∃ m, perspectiveProjection Real.tan (Real.pi / 2) 1 1 2 = .ok m ∧
      m.mulVec ⟨0, 0, -1, 1⟩ = ⟨0, 0, 0, 1⟩ ∧
      (m.mulVec ⟨0, 0, -1, 1⟩).z / (m.mulVec ⟨0, 0, -1, 1⟩).w ≠ -1 := by
  refine ⟨_, perspectiveProjection_ok Real.tan (Real.pi / 2) 1 1 2 (lt_irrefl 1), ?_, ?_⟩
  · simp only [Mat4.mulVec, Vec4.mk.injEq]
    norm_num
  · simp only [Mat4.mulVec]
    norm_num

/-- Witness for C15 as amended, at field angle `π/2`, ratio `1`, `near = 1`, `far = 2`. -/
theorem perspectiveProjection_near_center_witness :
    ∃ m, perspectiveProjection Real.tan (Real.pi / 2) 1 1 2 = .ok m ∧
      0 < (m.mulVec ⟨0, 0, -1, 1⟩).w ∧
      (m.mulVec ⟨0, 0, -1, 1⟩).z / (m.mulVec ⟨0, 0, -1, 1⟩).w = 0 :=
  perspectiveProjection_near_center Real.tan (Real.pi / 2) 1 1 2
    (by
      have h : Real.pi / 2 / 2 = Real.pi / 4 := by ring
      rw [h, Real.tan_pi_div_four]
      exact one_ne_zero)
    le_rfl one_pos (by norm_num)

/-- C17 as stated fails: for the box `[-1, 1] x [-1, 1]` with `near = 1`, `far = 2` the corner
`(left, bottom, -near, 1) = (-1, -1, -1, 1)` is mapped to `(-1, -1, 0, 1)`, not to
`(-1, -1, -1, 1)`. -/
theorem orthoProjection_near_corner_depth_zero :
    (orthoProjection (-1 : ℚ) 1 (-1) 1 1 2).mulVec ⟨-1, -1, -1, 1⟩ = ⟨-1, -1, 0, 1⟩ ∧
      (orthoProjection (-1 : ℚ) 1 (-1) 1 1 2).mulVec ⟨-1, -1, -1, 1⟩ ≠ ⟨-1, -1, -1, 1⟩ := by
  constructor
  · simp only [orthoProjection, Mat4.mulVec, Vec4.mk.injEq]
    norm_num
  · simp only [orthoProjection, Mat4.mulVec]
    norm_num

/-- Witness for C17 as amended, at the box `[-1, 1] x [-1, 1]` with `near = 1`, `far = 2`. -/
theorem orthoProjection_corners_witness :
    (orthoProjection (-1 : ℚ) 1 (-1) 1 1 2).mulVec ⟨-1, -1, -1, 1⟩ = ⟨-1, -1, 0, 1⟩ ∧
      (orthoProjection (-1 : ℚ) 1 (-1) 1 1 2).mulVec ⟨1, 1, -2, 1⟩ = ⟨1, 1, 1, 1⟩ :=
  orthoProjection_corners (-1 : ℚ) 1 (-1) 1 1 2 (by norm_num) (by norm_num) (by norm_num)

/-! ## Cylinder: rotation keeps the buffers and the stored members aligned -/

section CylinderRotation

variable {K : Type} [LinearOrderedField K]

@[simp]
theorem Vec3.sub_def (a b : Vec3 K) : a - b = ⟨a.x - b.x, a.y - b.y, a.z - b.z⟩ := rfl

/-- A matrix maps a difference to the difference of the images. -/
theorem Mat3.mulVec_sub (m : Mat3 K) (a b : Vec3 K) :
    m.mulVec (a - b) = m.mulVec a - m.mulVec b := by
  simp only [Mat3.mulVec, Vec3.sub_def, Vec3.mk.injEq]
  refine ⟨?_, ?_, ?_⟩ <;> ring

/-- A matrix commutes with the product by a scalar. -/
theorem Mat3.mulVec_smul (m : Mat3 K) (k : K) (a : Vec3 K) :
    m.mulVec (k • a) = k • m.mulVec a := by
  simp only [Mat3.mulVec, Vec3.smul_def, Vec3.mk.injEq]
  refine ⟨?_, ?_, ?_⟩ <;> ring

/-- A matrix commutes with the unary minus. -/
theorem Mat3.mulVec_neg (m : Mat3 K) (a : Vec3 K) : m.mulVec (-a) = -m.mulVec a := by
  simp only [Mat3.mulVec, Vec3.neg_def, Vec3.mk.injEq]
  refine ⟨?_, ?_, ?_⟩ <;> ring

/-- The base vertex `i` and the top vertex `n + i` of a freshly constructed cylinder. -/
theorem Cylinder.vertices_new_pair (cos sin : K → K) (radius height : K)
    (base_center : Point K) {n i : ℕ} (hi : i < n) :
    (Cylinder.new cos sin radius height base_center n).vertices[i]?
        = some (base_center + radius • Circle.normal cos sin (_2PI_ / (n : K)) i) ∧
      (Cylinder.new cos sin radius height base_center n).vertices[n + i]?
        = some ((⟨base_center.x, base_center.y, base_center.z + height⟩ : Vec3 K)
            + radius • Circle.normal cos sin (_2PI_ / (n : K)) i) := by
  have hsize : ∀ c : Point K, (Circle.new cos sin radius c n).size = n := by
    intro c; simp [Circle.new, Shape.size]
  constructor
  · simp only [Cylinder.new, hsize]
    rw [List.getElem?_append_left (by simpa using hi), getElem?_range_map _ hi,
      Circle.at_new cos sin radius base_center hi]
    rfl
  · simp only [Cylinder.new, hsize]
    rw [List.getElem?_append_right (by simp), getElem?_range_map _ (by simpa using hi)]
    simp only [List.length_map, List.length_range, Nat.add_sub_cancel_left]
    rw [Circle.at_new cos sin radius _ hi]
    rfl

/-- A freshly constructed cylinder is aligned. -/
theorem Cylinder.aligned_new (cos sin : K → K) (radius height : K) (base_center : Point K)
    (n : ℕ) : (Cylinder.new cos sin radius height base_center n).Aligned n := by
  refine ⟨rfl, ?_, ?_⟩
  · simp [Cylinder.new, Vec3.UnitZ]
  · intro i hi
    obtain ⟨h2, h3⟩ := Cylinder.vertices_new_pair cos sin radius height base_center hi
    refine ⟨_, _, h2, h3, ?_⟩
    simp [Cylinder.new]

/-- One call of `Cylinder::rotate3D` keeps a cylinder aligned. -/
theorem Cylinder.aligned_rotate3D (cos sin : K → K) (c : Cylinder K) (n : ℕ)
    (hc : c.Aligned n) (angle : K) (axis : Vec3 K) :
    (c.rotate3D cos sin angle axis).Aligned n := by
  obtain ⟨h1, h2, h3⟩ := hc
  refine ⟨?_, ?_, ?_⟩
  · simp only [Cylinder.rotate3D, AngleAxis.rotate]
    rw [h1, Mat3.mulVec_neg]
  · simp only [Cylinder.rotate3D, AngleAxis.rotate]
    rw [← Mat3.mulVec_sub, h2, Mat3.mulVec_smul]
  · intro i hi
    obtain ⟨a, b, ha, hb, hab⟩ := h3 i hi
    refine ⟨AngleAxis.rotate cos sin angle axis a, AngleAxis.rotate cos sin angle axis b,
      ?_, ?_, ?_⟩
    · simp [Cylinder.rotate3D, Shape.rotate3D, ha]
    · simp [Cylinder.rotate3D, Shape.rotate3D, hb]
    · simp only [Cylinder.rotate3D, AngleAxis.rotate]
      rw [← Mat3.mulVec_sub, ← Mat3.mulVec_sub, hab]

/-- Every sequence of `Cylinder::rotate3D` calls keeps a cylinder aligned. -/
theorem Cylinder.aligned_rotations (cos sin : K → K) (n : ℕ) (calls : List (K × Vec3 K))
    (c : Cylinder K) (hc : c.Aligned n) : (c.rotations cos sin calls).Aligned n := by
  induction calls generalizing c with
  | nil => exact hc
  | cons a calls ih =>
    simp only [Cylinder.rotations, List.foldl_cons]
    exact ih _ (Cylinder.aligned_rotate3D cos sin c n hc a.1 a.2)

/-- C11: `Cylinder::rotate3D(angle, axis)` applies the rotation `AngleAxis(angle, axis)` to
the two buffers and to `base_center`, `top_center`, `base_normal`, `top_normal`; and after
any sequence of such calls on `Cylinder(r, h, c, n)`, for every `i < n`,
`vertex[n+i] - vertex[i] = top_center - base_center = height * top_normal`, and
`base_normal = -top_normal`. -/
theorem Cylinder_rotate3D_keeps_alignment (cos sin : K → K) (radius height : K)
    (base_center : Point K) (n : ℕ) (calls : List (K × Vec3 K)) :
    (∀ (c : Cylinder K) (angle : K) (axis : Vec3 K),
      (c.rotate3D cos sin angle axis).vertices
          = c.vertices.map (AngleAxis.rotate cos sin angle axis) ∧
        (c.rotate3D cos sin angle axis).normals
          = c.normals.map (AngleAxis.rotate cos sin angle axis) ∧
        (c.rotate3D cos sin angle axis)._base_center
          = AngleAxis.rotate cos sin angle axis c._base_center ∧
        (c.rotate3D cos sin angle axis)._top_center
          = AngleAxis.rotate cos sin angle axis c._top_center ∧
        (c.rotate3D cos sin angle axis)._base_normal
          = AngleAxis.rotate cos sin angle axis c._base_normal ∧
        (c.rotate3D cos sin angle axis)._top_normal
          = AngleAxis.rotate cos sin angle axis c._top_normal) ∧
    ((Cylinder.new cos sin radius height base_center n).rotations cos sin calls)._height
      = height ∧
    ((Cylinder.new cos sin radius height base_center n).rotations cos sin calls)._base_normal
      = -((Cylinder.new cos sin radius height base_center n).rotations cos sin
          calls)._top_normal ∧
    (((Cylinder.new cos sin radius height base_center n).rotations cos sin calls)._top_center
        - ((Cylinder.new cos sin radius height base_center n).rotations cos sin
          calls)._base_center
      = height • ((Cylinder.new cos sin radius height base_center n).rotations cos sin
          calls)._top_normal) ∧
    ∀ i, i < n → ∃ a b : Vec3 K,
      ((Cylinder.new cos sin radius height base_center n).rotations cos sin calls).vertices[i]?
        = some a ∧
      ((Cylinder.new cos sin radius height base_center n).rotations cos sin
          calls).vertices[n + i]?
        = some b ∧
      b - a
        = ((Cylinder.new cos sin radius height base_center n).rotations cos sin
            calls)._top_center
          - ((Cylinder.new cos sin radius height base_center n).rotations cos sin
            calls)._base_center := by
  have hheight : ∀ (cs : List (K × Vec3 K)) (c : Cylinder K),
      (c.rotations cos sin cs)._height = c._height := by
    intro cs
    induction cs with
    | nil => intro c; rfl
    | cons a cs ih =>
      intro c
      simp only [Cylinder.rotations, List.foldl_cons]
      exact (ih _).trans rfl
  have hh : ((Cylinder.new cos sin radius height base_center n).rotations cos sin
      calls)._height = height := (hheight calls _).trans rfl
  obtain ⟨h1, h2, h3⟩ := Cylinder.aligned_rotations cos sin n calls _
    (Cylinder.aligned_new cos sin radius height base_center n)
  refine ⟨?_, hh, h1, ?_, h3⟩
  · intro c angle axis
    exact ⟨rfl, rfl, rfl, rfl, rfl, rfl⟩
  · rw [h2, hh]

end CylinderRotation

/-- Witness for C11: after a half turn about the Z axis, the top vertex of the cylinder of
radius 1 and height 2 over one base vertex is still its base vertex moved by
`top_center - base_center`. -/
theorem Cylinder_rotate3D_keeps_alignment_witness :
    ∃ a b : Vec3 ℝ,
      ((Cylinder.new Real.cos Real.sin 1 2 ⟨0, 0, 0⟩ 1).rotations Real.cos Real.sin
          [(Real.pi, ⟨0, 0, 1⟩)]).vertices[0]? = some a ∧
      ((Cylinder.new Real.cos Real.sin 1 2 ⟨0, 0, 0⟩ 1).rotations Real.cos Real.sin
          [(Real.pi, ⟨0, 0, 1⟩)]).vertices[1 + 0]? = some b ∧
      b - a
        = ((Cylinder.new Real.cos Real.sin 1 2 ⟨0, 0, 0⟩ 1).rotations Real.cos Real.sin
            [(Real.pi, ⟨0, 0, 1⟩)])._top_center
          - ((Cylinder.new Real.cos Real.sin 1 2 ⟨0, 0, 0⟩ 1).rotations Real.cos Real.sin
            [(Real.pi, ⟨0, 0, 1⟩)])._base_center :=
  (Cylinder_rotate3D_keeps_alignment Real.cos Real.sin 1 2 ⟨0, 0, 0⟩ 1
    [(Real.pi, ⟨0, 0, 1⟩)]).2.2.2.2 0 (by decide)

/-! ## Circle and Cone: lengths of the normals -/

/-- The norm of `(cos t, sin t, 0)` is one. -/
theorem Circle.normal_norm (delta_angle : ℝ) (i : ℕ) :
    (Circle.normal Real.cos Real.sin delta_angle i).norm Real.sqrt = 1 := by
  have h := Real.cos_sq_add_sin_sq (delta_angle * (i : ℝ))
  have h1 : (Circle.normal Real.cos Real.sin delta_angle i).squaredNorm = 1 := by
    simp only [Circle.normal, Vec3.squaredNorm, Vec3.dot]
    nlinarith [h]
  simp [Vec3.norm, h1]

/-- C19: every normal of `Circle(r, c, n)` has unit length and every vertex lies at distance
`|r|` from `c`. -/
theorem Circle_normals_unit_vertices_at_radius (r : ℝ) (c : Point ℝ) (n : ℕ) :
    (∀ v ∈ (Circle.new Real.cos Real.sin r c n).normals, v.norm Real.sqrt = 1) ∧
    (∀ p ∈ (Circle.new Real.cos Real.sin r c n).vertices, (p - c).norm Real.sqrt = |r|) := by
  constructor
  · intro v hv
    simp only [Circle.new, List.mem_map] at hv
    obtain ⟨i, -, rfl⟩ := hv
    exact Circle.normal_norm _ i
  · intro p hp
    simp only [Circle.new, List.mem_map] at hp
    obtain ⟨i, -, rfl⟩ := hp
    have h := Real.cos_sq_add_sin_sq (_2PI_ / (n : ℝ) * (i : ℝ))
    have h1 : (c + r • Circle.normal Real.cos Real.sin (_2PI_ / (n : ℝ)) i - c).squaredNorm
        = r * r := by
      simp only [Circle.normal, Vec3.squaredNorm, Vec3.dot, Vec3.add_def, Vec3.smul_def,
        Vec3.sub_def]
      linear_combination (r * r) * h
    simp only [Vec3.norm, h1]
    exact Real.sqrt_mul_self_eq_abs r

/-- Witness for C19: the single normal of a circle of radius `-2` with one vertex has norm `1`
and its vertex lies at distance `2` from the center. -/
theorem Circle_normals_unit_vertices_at_radius_witness :
    (Circle.new Real.cos Real.sin (-2) ⟨1, 1, 1⟩ 1).normals.map (Vec3.norm Real.sqrt) = [1] ∧
      (Circle.new Real.cos Real.sin (-2) ⟨1, 1, 1⟩ 1).vertices.map
          (fun p => (p - (⟨1, 1, 1⟩ : Vec3 ℝ)).norm Real.sqrt) = [|(-2 : ℝ)|] := by
  have h := Circle_normals_unit_vertices_at_radius (-2) ⟨1, 1, 1⟩ 1
  have hn : (Circle.new Real.cos Real.sin (-2) ⟨1, 1, 1⟩ 1).normals
      = [Circle.normal Real.cos Real.sin (_2PI_ / ((1 : ℕ) : ℝ)) 0] := rfl
  have hv : (Circle.new Real.cos Real.sin (-2) ⟨1, 1, 1⟩ 1).vertices
      = [(⟨1, 1, 1⟩ : Vec3 ℝ)
          + (-2 : ℝ) • Circle.normal Real.cos Real.sin (_2PI_ / ((1 : ℕ) : ℝ)) 0] := rfl
  constructor
  · have h1 := h.1 _ (by rw [hn]; exact List.mem_singleton_self _)
    rw [hn, List.map_singleton, h1]
  · have h2 := h.2 _ (by rw [hv]; exact List.mem_singleton_self _)
    rw [hv, List.map_singleton, h2]

/-- C20: for `h ≠ 0` and `i < n`, rim normal `i` of `Cone(r, h, c, n)` is
`(xy * cos theta_i, xy * sin theta_i, z)` with `theta_i = i * (_2PI_ / n)`,
`xy = 1 / sqrt(1 + (r/h)^2)` and `z = (r/h) * xy`, and it has unit length. -/
theorem Cone_rim_normals (r h : ℝ) (c : Point ℝ) (n : ℕ) (hh : h ≠ 0) :
    ∀ i, i < n → ∃ nrm : Vec3 ℝ,
      (Cone.new Real.cos Real.sin Real.sqrt r h c n).normals[i]? = some nrm ∧
      nrm = ⟨1 / Real.sqrt (1 + (r / h) ^ 2) * Real.cos ((i : ℝ) * (_2PI_ / (n : ℝ))),
             1 / Real.sqrt (1 + (r / h) ^ 2) * Real.sin ((i : ℝ) * (_2PI_ / (n : ℝ))),
             r / h * (1 / Real.sqrt (1 + (r / h) ^ 2))⟩ ∧
      nrm.norm Real.sqrt = 1 := by
  intro i hi
  have hq : r * r / h / h = (r / h) ^ 2 := by
    field_simp
    ring
  have hpos : 0 < 1 + (r / h) ^ 2 := by positivity
  have hs : Real.sqrt (1 + (r / h) ^ 2) * Real.sqrt (1 + (r / h) ^ 2) = 1 + (r / h) ^ 2 :=
    Real.mul_self_sqrt hpos.le
  have hs0 : Real.sqrt (1 + (r / h) ^ 2) ≠ 0 := (Real.sqrt_pos.mpr hpos).ne'
  have htrig := Real.cos_sq_add_sin_sq ((i : ℝ) * (_2PI_ / (n : ℝ)))
  refine ⟨_, ?_, rfl, ?_⟩
  · simp only [Cone.new]
    rw [List.getElem?_append_left (by simpa using hi), getElem?_range_map _ hi, hq]
    simp [AngleAxis.rotate, AngleAxis.toRotationMatrix, Mat3.mulVec, Vec3.UnitX, Vec3.UnitZ]
  · have h1 : (⟨1 / Real.sqrt (1 + (r / h) ^ 2) * Real.cos ((i : ℝ) * (_2PI_ / (n : ℝ))),
        1 / Real.sqrt (1 + (r / h) ^ 2) * Real.sin ((i : ℝ) * (_2PI_ / (n : ℝ))),
        r / h * (1 / Real.sqrt (1 + (r / h) ^ 2))⟩ : Vec3 ℝ).squaredNorm = 1 := by
      simp only [Vec3.squaredNorm, Vec3.dot]
      generalize Real.sqrt (1 + (r / h) ^ 2) = t at hs hs0
      generalize Real.cos ((i : ℝ) * (_2PI_ / (n : ℝ))) = cs at htrig
      generalize Real.sin ((i : ℝ) * (_2PI_ / (n : ℝ))) = sn at htrig
      have e : (1 / t * cs) * (1 / t * cs) + (1 / t * sn) * (1 / t * sn)
          + r / h * (1 / t) * (r / h * (1 / t))
          = ((cs ^ 2 + sn ^ 2) + (r / h) ^ 2) / (t * t) := by
        field_simp
        ring
      rw [e, htrig, hs]
      exact div_self hpos.ne'
    rw [Vec3.norm, h1, Real.sqrt_one]

/-- Witness for C20: the cone of radius 3 and height 4 over one base vertex has the rim normal
`(4/5, 0, 3/5)`. -/
theorem Cone_rim_normals_witness :
    ∃ nrm : Vec3 ℝ,
      (Cone.new Real.cos Real.sin Real.sqrt 3 4 ⟨0, 0, 0⟩ 1).normals[0]? = some nrm ∧
      nrm.norm Real.sqrt = 1 := by
  obtain ⟨nrm, h1, -, h3⟩ := Cone_rim_normals 3 4 ⟨0, 0, 0⟩ 1 (by norm_num) 0 (by decide)
  exact ⟨nrm, h1, h3⟩

/-! ## Coordinate systems -/

section FramesGeneric

variable {K : Type} [LinearOrderedField K]

/-- The coordinate system that the constructor builds when the orthogonality test passes. -/
theorem CartesianCS_3D.new_ok (sqrt : K → K) (epsilon : K) (center axis_1 axis_2 : Vec3 K)
    (h : ¬ |(axis_1.normalized sqrt).dot (axis_2.normalized sqrt)| > 10 * epsilon) :
    CartesianCS_3D.new sqrt epsilon center axis_1 axis_2
      = .ok
        { _axis_0 := axis_1.normalized sqrt
          _axis_1 := axis_2.normalized sqrt
          _axis_2 := (axis_1.normalized sqrt).cross (axis_2.normalized sqrt)
          _center := center
          transf_matrix :=
            ⟨⟨(axis_1.normalized sqrt).x, (axis_1.normalized sqrt).y,
                (axis_1.normalized sqrt).z, -((axis_1.normalized sqrt).dot center)⟩,
             ⟨(axis_2.normalized sqrt).x, (axis_2.normalized sqrt).y,
                (axis_2.normalized sqrt).z, -((axis_2.normalized sqrt).dot center)⟩,
             ⟨((axis_1.normalized sqrt).cross (axis_2.normalized sqrt)).x,
                ((axis_1.normalized sqrt).cross (axis_2.normalized sqrt)).y,
                ((axis_1.normalized sqrt).cross (axis_2.normalized sqrt)).z,
                -(((axis_1.normalized sqrt).cross (axis_2.normalized sqrt)).dot center)⟩,
             ⟨0, 0, 0, 1⟩⟩ } := by
  unfold CartesianCS_3D.new
  simp only []
  rw [if_neg h]

/-- The exception that the constructor throws when the orthogonality test fails. -/
theorem CartesianCS_3D.new_throws (sqrt : K → K) (epsilon : K) (center axis_1 axis_2 : Vec3 K)
    (h : |(axis_1.normalized sqrt).dot (axis_2.normalized sqrt)| > 10 * epsilon) :
    CartesianCS_3D.new sqrt epsilon center axis_1 axis_2
      = .error (.invalid_argument "Axis vectors must be orthogonal.") := by
  unfold CartesianCS_3D.new
  simp only []
  rw [if_pos h]

/-- Lagrange: the cross product of two orthogonal unit vectors is a unit vector. -/
theorem Vec3.squaredNorm_cross_of_orthonormal {a b : Vec3 K} (ha : a.squaredNorm = 1)
    (hb : b.squaredNorm = 1) (hab : a.dot b = 0) : (a.cross b).squaredNorm = 1 := by
  cases a with
  | mk ax ay az =>
    cases b with
    | mk bx by' bz =>
      simp only [Vec3.squaredNorm, Vec3.dot, Vec3.cross] at *
      linear_combination (bx * bx + by' * by' + bz * bz) * ha + hb
        - (ax * bx + ay * by' + az * bz) * hab

/-- The matrix whose rows are two orthogonal unit vectors and their cross product, times its
transpose, is the identity. -/
theorem Mat3.mul_transpose_of_orthonormal {a b : Vec3 K} (ha : a.squaredNorm = 1)
    (hb : b.squaredNorm = 1) (hab : a.dot b = 0) :
    Mat3.mul
        ⟨a.x, a.y, a.z, b.x, b.y, b.z, (a.cross b).x, (a.cross b).y, (a.cross b).z⟩
        (Mat3.transpose
          ⟨a.x, a.y, a.z, b.x, b.y, b.z, (a.cross b).x, (a.cross b).y, (a.cross b).z⟩)
      = Mat3.identity := by
  have hc := Vec3.squaredNorm_cross_of_orthonormal ha hb hab
  cases a with
  | mk ax ay az =>
    cases b with
    | mk bx by' bz =>
      simp only [Vec3.squaredNorm, Vec3.dot, Vec3.cross] at ha hb hab hc
      simp only [Mat3.mul, Mat3.transpose, Mat3.identity, Vec3.cross, Mat3.mk.injEq]
      refine ⟨?_, ?_, ?_, ?_, ?_, ?_, ?_, ?_, ?_⟩
      · linear_combination ha
      · linear_combination hab
      · ring
      · linear_combination hab
      · linear_combination hb
      · ring
      · ring
      · ring
      · linear_combination hc

end FramesGeneric

/-- A nonzero real vector is normalized by dividing it by its norm. -/
theorem Vec3.normalize_eq_smul {v : Vec3 ℝ} (hv : v ≠ 0) :
    v.normalize Real.sqrt = (1 / Real.sqrt v.squaredNorm) • v := by
  have hpos := Vec3.squaredNorm_pos hv
  simp only [Vec3.normalize, if_pos hpos, Vec3.smul_def, Vec3.mk.injEq]
  refine ⟨?_, ?_, ?_⟩ <;> ring

/-- The squared norm of a normalized nonzero real vector is one. -/
theorem Vec3.squaredNorm_normalize {v : Vec3 ℝ} (hv : v ≠ 0) :
    (v.normalize Real.sqrt).squaredNorm = 1 := by
  have hpos := Vec3.squaredNorm_pos hv
  have hs : 0 < Real.sqrt v.squaredNorm := Real.sqrt_pos.mpr hpos
  have hsq : Real.sqrt v.squaredNorm * Real.sqrt v.squaredNorm = v.squaredNorm :=
    Real.mul_self_sqrt hpos.le
  simp only [Vec3.normalize, if_pos hpos]
  generalize Real.sqrt v.squaredNorm = t at hs hsq
  have ht : t ≠ 0 := hs.ne'
  simp only [Vec3.squaredNorm, Vec3.dot] at hsq ⊢
  field_simp
  linarith

/-- Normalizing a real unit vector leaves it as it is. -/
theorem Vec3.normalize_of_unit {v : Vec3 ℝ} (hv : v.squaredNorm = 1) :
    v.normalize Real.sqrt = v := by
  cases v with
  | mk x y z =>
    simp [Vec3.normalize, hv]

/-- The dot product of two normalized nonzero real vectors is the dot product of the vectors
divided by the product of their norms. -/
theorem Vec3.dot_normalize (a b : Vec3 ℝ) (ha : a ≠ 0) (hb : b ≠ 0) :
    (a.normalize Real.sqrt).dot (b.normalize Real.sqrt)
      = a.dot b / (Real.sqrt a.squaredNorm * Real.sqrt b.squaredNorm) := by
  have h1 : Real.sqrt a.squaredNorm ≠ 0 := (Real.sqrt_pos.mpr (Vec3.squaredNorm_pos ha)).ne'
  have h2 : Real.sqrt b.squaredNorm ≠ 0 := (Real.sqrt_pos.mpr (Vec3.squaredNorm_pos hb)).ne'
  rw [Vec3.normalize_eq_smul ha, Vec3.normalize_eq_smul hb]
  simp only [Vec3.dot, Vec3.smul_def]
  field_simp

/-- C12 as amended: for nonzero `axis_1`, `axis_2` the constructor throws
`std::invalid_argument` exactly when the absolute value of the dot product of
`axis_1 / |axis_1|` and `axis_2 / |axis_2|` is above `10 * epsilon`, and otherwise constructs
the coordinate system; in particular two vectors for which this value is above `10 * epsilon`
are rejected. -/
theorem CartesianCS_3D_throws_iff (epsilon : ℝ) (center axis_1 axis_2 : Vec3 ℝ)
    (h1 : axis_1 ≠ 0) (h2 : axis_2 ≠ 0) :
    ((∃ msg, CartesianCS_3D.new Real.sqrt epsilon center axis_1 axis_2
        = .error (.invalid_argument msg))
      ↔ |((1 / Real.sqrt axis_1.squaredNorm) • axis_1).dot
            ((1 / Real.sqrt axis_2.squaredNorm) • axis_2)| > 10 * epsilon) ∧
    (¬ |((1 / Real.sqrt axis_1.squaredNorm) • axis_1).dot
            ((1 / Real.sqrt axis_2.squaredNorm) • axis_2)| > 10 * epsilon →
      ∃ cs, CartesianCS_3D.new Real.sqrt epsilon center axis_1 axis_2 = .ok cs) := by
  rw [← Vec3.normalize_eq_smul h1, ← Vec3.normalize_eq_smul h2]
  refine ⟨⟨?_, ?_⟩, ?_⟩
  · rintro ⟨msg, hmsg⟩
    by_contra hn
    rw [CartesianCS_3D.new_ok Real.sqrt epsilon center axis_1 axis_2 hn] at hmsg
    exact absurd hmsg (by simp)
  · intro h
    exact ⟨_, CartesianCS_3D.new_throws Real.sqrt epsilon center axis_1 axis_2 h⟩
  · intro hn
    exact ⟨_, CartesianCS_3D.new_ok Real.sqrt epsilon center axis_1 axis_2 hn⟩

/-- C13: for nonzero and exactly orthogonal `axis_1`, `axis_2` (and a machine epsilon that is
not negative) the constructor returns a coordinate system whose matrix has a rotation block
`R` with `R * Rᵀ = I` and the last row `(0, 0, 0, 1)`. -/
theorem CartesianCS_3D_rotation_block_orthonormal (epsilon : ℝ) (center axis_1 axis_2 : Vec3 ℝ)
    (hε : 0 ≤ epsilon) (h1 : axis_1 ≠ 0) (h2 : axis_2 ≠ 0) (horth : axis_1.dot axis_2 = 0) :
    ∃ cs, CartesianCS_3D.new Real.sqrt epsilon center axis_1 axis_2 = .ok cs ∧
      Mat3.mul cs.transformMatrix.rotationBlock cs.transformMatrix.rotationBlock.transpose
        = Mat3.identity ∧
      cs.transformMatrix.row3 = ⟨0, 0, 0, 1⟩ := by
  have hdot : (axis_1.normalized Real.sqrt).dot (axis_2.normalized Real.sqrt) = 0 := by
    simp only [Vec3.normalized]
    rw [Vec3.dot_normalize axis_1 axis_2 h1 h2, horth, zero_div]
  have hn : ¬ |(axis_1.normalized Real.sqrt).dot (axis_2.normalized Real.sqrt)|
      > 10 * epsilon := by
    rw [hdot, abs_zero]
    exact not_lt.mpr (by positivity)
  refine ⟨_, CartesianCS_3D.new_ok Real.sqrt epsilon center axis_1 axis_2 hn, ?_, rfl⟩
  exact Mat3.mul_transpose_of_orthonormal (Vec3.squaredNorm_normalize h1)
    (Vec3.squaredNorm_normalize h2) hdot

/-- Witness for C12 as amended, at `epsilon = 2^-23` and the vectors `(1, 0, 0)`,
`(1, 1, 0)`. -/
theorem CartesianCS_3D_throws_iff_witness :
    ((∃ msg, CartesianCS_3D.new Real.sqrt (1 / 8388608) ⟨0, 0, 0⟩ ⟨1, 0, 0⟩ ⟨1, 1, 0⟩
        = .error (.invalid_argument msg))
      ↔ |((1 / Real.sqrt (⟨1, 0, 0⟩ : Vec3 ℝ).squaredNorm) • (⟨1, 0, 0⟩ : Vec3 ℝ)).dot
            ((1 / Real.sqrt (⟨1, 1, 0⟩ : Vec3 ℝ).squaredNorm) • (⟨1, 1, 0⟩ : Vec3 ℝ))|
          > 10 * (1 / 8388608)) ∧
    (¬ |((1 / Real.sqrt (⟨1, 0, 0⟩ : Vec3 ℝ).squaredNorm) • (⟨1, 0, 0⟩ : Vec3 ℝ)).dot
            ((1 / Real.sqrt (⟨1, 1, 0⟩ : Vec3 ℝ).squaredNorm) • (⟨1, 1, 0⟩ : Vec3 ℝ))|
          > 10 * (1 / 8388608) →
      ∃ cs, CartesianCS_3D.new Real.sqrt (1 / 8388608) ⟨0, 0, 0⟩ ⟨1, 0, 0⟩ ⟨1, 1, 0⟩
        = .ok cs) :=
  CartesianCS_3D_throws_iff (1 / 8388608) ⟨0, 0, 0⟩ ⟨1, 0, 0⟩ ⟨1, 1, 0⟩ (by simp) (by simp)

/-- C12 as stated fails: with `epsilon = 2^-23` (single precision) the vectors `(1, 0, 0)` and
`(1, 2^23, 0)` are not orthogonal, their dot product is `1`, and the constructor accepts them,
because the dot product of the normalized vectors is below `10 * epsilon`. -/
theorem CartesianCS_3D_accepts_non_orthogonal :
    (⟨1, 0, 0⟩ : Vec3 ℝ).dot ⟨1, 8388608, 0⟩ ≠ 0 ∧
      ∃ cs, CartesianCS_3D.new Real.sqrt (1 / 8388608) ⟨0, 0, 0⟩ ⟨1, 0, 0⟩ ⟨1, 8388608, 0⟩
        = .ok cs := by
  constructor
  · simp [Vec3.dot]
  · refine ⟨_, CartesianCS_3D.new_ok Real.sqrt (1 / 8388608) ⟨0, 0, 0⟩ ⟨1, 0, 0⟩
      ⟨1, 8388608, 0⟩ ?_⟩
    simp only [Vec3.normalized]
    rw [Vec3.dot_normalize _ _ (by simp) (by simp)]
    have h1 : (⟨1, 0, 0⟩ : Vec3 ℝ).squaredNorm = 1 := by simp [Vec3.squaredNorm, Vec3.dot]
    have h2 : (8388608 : ℝ) ≤ Real.sqrt (⟨1, 8388608, 0⟩ : Vec3 ℝ).squaredNorm := by
      apply Real.le_sqrt_of_sq_le
      simp only [Vec3.squaredNorm, Vec3.dot]
      norm_num
    have h3 : (⟨1, 0, 0⟩ : Vec3 ℝ).dot ⟨1, 8388608, 0⟩ = 1 := by simp [Vec3.dot]
    rw [h1, h3, Real.sqrt_one, one_mul]
    generalize Real.sqrt (⟨1, 8388608, 0⟩ : Vec3 ℝ).squaredNorm = t at h2
    have ht : 0 < t := by linarith
    rw [abs_of_pos (by positivity)]
    apply not_lt.mpr
    rw [div_le_iff₀ ht]
    nlinarith

/-- Witness for C13, at `epsilon = 2^-23`, center `(1, 2, 3)` and the orthogonal vectors
`(3, 4, 0)`, `(0, 0, 2)`. -/
theorem CartesianCS_3D_rotation_block_orthonormal_witness :
    ∃ cs, CartesianCS_3D.new Real.sqrt (1 / 8388608) ⟨1, 2, 3⟩ ⟨3, 4, 0⟩ ⟨0, 0, 2⟩ = .ok cs ∧
      Mat3.mul cs.transformMatrix.rotationBlock cs.transformMatrix.rotationBlock.transpose
        = Mat3.identity ∧
      cs.transformMatrix.row3 = ⟨0, 0, 0, 1⟩ :=
  CartesianCS_3D_rotation_block_orthonormal (1 / 8388608) ⟨1, 2, 3⟩ ⟨3, 4, 0⟩ ⟨0, 0, 2⟩
    (by norm_num) (by simp) (by simp) (by simp [Vec3.dot])

/-! ## The look-at matrix -/

section CrossProducts

variable {K : Type} [LinearOrderedField K]

/-- A cross product is orthogonal to its second factor. -/
theorem Vec3.cross_dot_right (a b : Vec3 K) : (a.cross b).dot b = 0 := by
  simp only [Vec3.cross, Vec3.dot]
  ring

/-- A vector is orthogonal to its cross product with anything from the left. -/
theorem Vec3.dot_cross_self (a b : Vec3 K) : a.dot (b.cross a) = 0 := by
  simp only [Vec3.cross, Vec3.dot]
  ring

/-- The dot product is symmetric. -/
theorem Vec3.dot_comm (a b : Vec3 K) : a.dot b = b.dot a := by
  simp only [Vec3.dot]
  ring

/-- A scalar can be moved out of the second factor of a cross product. -/
theorem Vec3.cross_smul_right (a b : Vec3 K) (k : K) : a.cross (k • b) = k • a.cross b := by
  simp only [Vec3.cross, Vec3.smul_def, Vec3.mk.injEq]
  refine ⟨?_, ?_, ?_⟩ <;> ring

/-- A scalar can be moved out of the first factor of a dot product. -/
theorem Vec3.smul_dot (a b : Vec3 K) (k : K) : (k • a).dot b = k * a.dot b := by
  simp only [Vec3.dot, Vec3.smul_def]
  ring

/-- For a unit vector `a` orthogonal to `b`, `a × (b × a) = b`. -/
theorem Vec3.cross_cross_of_orthonormal {a b : Vec3 K} (ha : a.squaredNorm = 1)
    (hab : a.dot b = 0) : a.cross (b.cross a) = b := by
  cases a with
  | mk ax ay az =>
    cases b with
    | mk bx by' bz =>
      simp only [Vec3.squaredNorm, Vec3.dot, Vec3.cross, Vec3.mk.injEq] at *
      refine ⟨?_, ?_, ?_⟩
      · linear_combination bx * ha - ax * hab
      · linear_combination by' * ha - ay * hab
      · linear_combination bz * ha - az * hab

/-- A scalar multiple `k • v` with `k ≠ 0` vanishes only when `v` does. -/
theorem Vec3.smul_eq_zero {k : K} (hk : k ≠ 0) {v : Vec3 K} (h : k • v = 0) : v = 0 := by
  cases v with
  | mk x y z =>
    simp only [Vec3.smul_def, Vec3.zero_def, Vec3.mk.injEq, mul_eq_zero] at h ⊢
    exact ⟨h.1.resolve_left hk, h.2.1.resolve_left hk, h.2.2.resolve_left hk⟩

end CrossProducts

/-- C14: for `eye ≠ target` and `up` not parallel to `eye - target` (and a machine epsilon
that is not negative) the static `transformMatrix(eye, target, up)` throws nothing and returns
the matrix whose rotation rows are `newX`, `newY`, `newZ`, with
`newZ = normalize(eye - target)`, `newX = normalize(up × newZ)`, `newY = newZ × newX`, whose
translation column is `(-newX.eye, -newY.eye, -newZ.eye)` and whose last row is
`(0, 0, 0, 1)`. -/
theorem transformMatrix_static_rows (epsilon : ℝ) (eye target up : Vec3 ℝ) (hε : 0 ≤ epsilon)
    (hne : eye ≠ target) (hup : up.cross (eye - target) ≠ 0) :
    ∃ newX newY newZ : Vec3 ℝ,
      newZ = (eye - target).normalize Real.sqrt ∧
      newX = (up.cross newZ).normalize Real.sqrt ∧
      newY = newZ.cross newX ∧
      ∃ m, CartesianCS_3D.transformMatrix_static Real.sqrt epsilon eye target up = .ok m ∧
        m.rotationBlock
          = ⟨newX.x, newX.y, newX.z, newY.x, newY.y, newY.z, newZ.x, newZ.y, newZ.z⟩ ∧
        m.translationColumn = ⟨-(newX.dot eye), -(newY.dot eye), -(newZ.dot eye)⟩ ∧
        m.row3 = ⟨0, 0, 0, 1⟩ := by
  have hz0 : eye - target ≠ 0 := by
    intro h
    apply hne
    cases eye; cases target
    simp only [Vec3.sub_def, Vec3.zero_def, Vec3.mk.injEq, sub_eq_zero] at h
    simp [h.1, h.2.1, h.2.2]
  obtain ⟨newZ, hnewZ⟩ : ∃ v, v = (eye - target).normalize Real.sqrt := ⟨_, rfl⟩
  have hZ : newZ.squaredNorm = 1 := by
    rw [hnewZ]; exact Vec3.squaredNorm_normalize hz0
  have hx0 : up.cross newZ ≠ 0 := by
    intro h
    rw [hnewZ, Vec3.normalize_eq_smul hz0, Vec3.cross_smul_right] at h
    have hk : 1 / Real.sqrt (eye - target).squaredNorm ≠ 0 :=
      one_div_ne_zero (Real.sqrt_pos.mpr (Vec3.squaredNorm_pos hz0)).ne'
    exact hup (Vec3.smul_eq_zero hk h)
  obtain ⟨newX, hnewX⟩ : ∃ v, v = (up.cross newZ).normalize Real.sqrt := ⟨_, rfl⟩
  have hX : newX.squaredNorm = 1 := by
    rw [hnewX]; exact Vec3.squaredNorm_normalize hx0
  have hXZ : newX.dot newZ = 0 := by
    rw [hnewX, Vec3.normalize_eq_smul hx0, Vec3.smul_dot, Vec3.cross_dot_right, mul_zero]
  obtain ⟨newY, hnewY⟩ : ∃ v, v = newZ.cross newX := ⟨_, rfl⟩
  have hY : newY.squaredNorm = 1 := by
    rw [hnewY]
    exact Vec3.squaredNorm_cross_of_orthonormal hZ hX ((Vec3.dot_comm _ _).trans hXZ)
  have hXY : newX.dot newY = 0 := by
    rw [hnewY]; exact Vec3.dot_cross_self newX newZ
  have hcross : newX.cross newY = newZ := by
    rw [hnewY]; exact Vec3.cross_cross_of_orthonormal hX hXZ
  have hnX : newX.normalized Real.sqrt = newX := Vec3.normalize_of_unit hX
  have hnY : newY.normalized Real.sqrt = newY := Vec3.normalize_of_unit hY
  have hn : ¬ |(newX.normalized Real.sqrt).dot (newY.normalized Real.sqrt)|
      > 10 * epsilon := by
    rw [hnX, hnY, hXY, abs_zero]
    exact not_lt.mpr (by positivity)
  refine ⟨newX, newY, newZ, hnewZ, hnewX, hnewY, ?_⟩
  unfold CartesianCS_3D.transformMatrix_static
  simp only []
  rw [← hnewZ, ← hnewX, ← hnewY, CartesianCS_3D.new_ok Real.sqrt epsilon eye newX newY hn]
  refine ⟨_, rfl, ?_, ?_, rfl⟩
  · simp only [CartesianCS_3D.transformMatrix, Mat4.rotationBlock, hnX, hnY, hcross]
  · simp only [CartesianCS_3D.transformMatrix, Mat4.translationColumn, hnX, hnY, hcross]

/-- Witness for C14: the eye at `(0, 0, 5)` looking at the origin with `up = (0, 1, 0)`. -/
theorem transformMatrix_static_rows_witness :
    ∃ newX newY newZ : Vec3 ℝ,
      newZ = ((⟨0, 0, 5⟩ : Vec3 ℝ) - ⟨0, 0, 0⟩).normalize Real.sqrt ∧
      newX = ((⟨0, 1, 0⟩ : Vec3 ℝ).cross newZ).normalize Real.sqrt ∧
      newY = newZ.cross newX ∧
      ∃ m, CartesianCS_3D.transformMatrix_static Real.sqrt (1 / 8388608) ⟨0, 0, 5⟩ ⟨0, 0, 0⟩
            ⟨0, 1, 0⟩ = .ok m ∧
        m.rotationBlock
          = ⟨newX.x, newX.y, newX.z, newY.x, newY.y, newY.z, newZ.x, newZ.y, newZ.z⟩ ∧
        m.translationColumn
          = ⟨-(newX.dot ⟨0, 0, 5⟩), -(newY.dot ⟨0, 0, 5⟩), -(newZ.dot ⟨0, 0, 5⟩)⟩ ∧
        m.row3 = ⟨0, 0, 0, 1⟩ :=
  transformMatrix_static_rows (1 / 8388608) ⟨0, 0, 5⟩ ⟨0, 0, 0⟩ ⟨0, 1, 0⟩ (by norm_num)
    (by simp) (by simp [Vec3.cross])

/-! ## The constructor of a point from a range -/

section PointRangeLemmas

variable {K : Type}

/-- The loop on a range that fits: the scalars already written are `done`, the coordinates
not yet reached are `todo`, and the rest of the range overwrites the first of them. -/
theorem Point.fromRange_loop_fits (DIM : ℕ) (hDIM : DIM ≤ 255) :
    ∀ (rest done todo : List K), (done ++ todo).length = DIM → rest.length ≤ todo.length →
      Point.fromRange.loop DIM done.length rest (done ++ todo)
        = some (done ++ rest ++ todo.drop rest.length) := by
  intro rest
  induction rest with
  | nil => intro done todo _ _; simp [Point.fromRange.loop]
  | cons x rest ih =>
    intro done todo hlen hle
    cases todo with
    | nil => simp at hle
    | cons t todo =>
      have hpos : done.length < DIM := by
        rw [← hlen]; simp
      have hmod : (done.length + 1) % 256 = (done ++ [x]).length := by
        rw [Nat.mod_eq_of_lt (by omega)]; simp
      have hset : (done ++ t :: todo).set done.length x = (done ++ [x]) ++ todo := by
        simp [List.set_append]
      rw [Point.fromRange.loop, if_pos hpos, hmod, hset,
        ih (done ++ [x]) todo (by simpa [Nat.add_assoc, Nat.add_comm 1] using hlen)
          (by simpa using hle)]
      simp

/-- The loop on a range that does not fit reaches a write outside the coordinates. -/
theorem Point.fromRange_loop_overflows (DIM : ℕ) (hDIM : DIM ≤ 255) :
    ∀ (rest : List K) (pos : ℕ) (coords : List K), pos ≤ DIM → DIM < pos + rest.length →
      Point.fromRange.loop DIM pos rest coords = none := by
  intro rest
  induction rest with
  | nil => intro pos coords h1 h2; simp at h2; omega
  | cons x rest ih =>
    intro pos coords h1 h2
    rw [Point.fromRange.loop]
    by_cases hpos : pos < DIM
    · rw [if_pos hpos]
      have hle : (pos + 1) % 256 ≤ pos + 1 := Nat.mod_le _ _
      by_cases hwrap : pos + 1 < 256
      · rw [Nat.mod_eq_of_lt hwrap]
        exact ih (pos + 1) _ hpos (by simp at h2; omega)
      · exact absurd hwrap (by omega)
    · rw [if_neg hpos]

end PointRangeLemmas

/-- A range of at most `DIM` scalars gives the point with these scalars followed by zeros. -/
theorem Point.fromRange_fits {K : Type} [LinearOrderedField K] (DIM : ℕ) (hDIM : DIM ≤ 255)
    (xs : List K) (h : xs.length ≤ DIM) :
    Point.fromRange DIM xs = some (xs ++ List.replicate (DIM - xs.length) 0) := by
  have := Point.fromRange_loop_fits DIM hDIM xs [] (Point.zeros DIM)
    (by simp [Point.zeros]) (by simpa [Point.zeros] using h)
  simpa [Point.fromRange, Point.zeros] using this

/-- A range of more than `DIM` scalars makes the constructor write outside the point. -/
theorem Point.fromRange_overflows {K : Type} [LinearOrderedField K] (DIM : ℕ)
    (hDIM : DIM ≤ 255) (xs : List K) (h : DIM < xs.length) : Point.fromRange DIM xs = none :=
  Point.fromRange_loop_overflows DIM hDIM xs 0 (Point.zeros DIM) (Nat.zero_le _)
    (by simpa using h)

/-- C22 (the code departs from the claim): for `DIM = 3` and the four scalars `1, 2, 3, 4`
the loop writes `(*this)[3]`, outside the three coordinates, so the constructor does not
complete with the point `(1, 2, 3)` of the claim; a range of exactly three scalars gives
`(1, 2, 3)` and a range of two gives `(1, 2, 0)`. -/
theorem Point_fromRange_excess_input :
    Point.fromRange 3 [(1 : ℚ), 2, 3, 4] = none ∧
      Point.fromRange 3 [(1 : ℚ), 2, 3, 4] ≠ some [1, 2, 3] ∧
      Point.fromRange 3 [(1 : ℚ), 2, 3] = some [1, 2, 3] ∧
      Point.fromRange 3 [(1 : ℚ), 2] = some [1, 2, 0] := by
  refine ⟨?_, ?_, ?_, ?_⟩ <;>
    simp [Point.fromRange, Point.fromRange.loop, Point.zeros, List.replicate]

/-! ## Normals under a non-uniform scale -/

section NormalsScale

variable {K : Type} [LinearOrderedField K]

/-- The dot product of a normalized vector with `t` vanishes when the dot product of the
vector with `t` does, whatever `sqrt` is. -/
theorem Vec3.normalize_dot_eq_zero (sqrt : K → K) (v t : Vec3 K) (h : v.dot t = 0) :
    (v.normalize sqrt).dot t = 0 := by
  unfold Vec3.normalize
  simp only []
  split
  · simp only [Vec3.dot] at h ⊢
    have e : v.x / sqrt v.squaredNorm * t.x + v.y / sqrt v.squaredNorm * t.y
        + v.z / sqrt v.squaredNorm * t.z
        = (v.x * t.x + v.y * t.y + v.z * t.z) / sqrt v.squaredNorm := by ring
    rw [e, h, zero_div]
  · exact h

/-- C23: for nonzero `sx, sy, sz`, every normal `n` of the shape and every tangent `t` with
`n . t = 0`, the normal that `scale3D(sx, sy, sz)` leaves at the same index is orthogonal to
the scaled tangent `(sx * t.x, sy * t.y, sz * t.z)`. -/
theorem scale3D_normal_orthogonal_to_scaled_tangent (sqrt : K → K) (s : Shape K)
    (sx sy sz : K) (hx : sx ≠ 0) (hy : sy ≠ 0) (hz : sz ≠ 0) (i : ℕ) (n t : Vec3 K)
    (hn : s.normals[i]? = some n) (ht : n.dot t = 0) :
    ∃ n' : Vec3 K, (s.scale3D sqrt sx sy sz).normals[i]? = some n' ∧
      n'.dot ⟨sx * t.x, sy * t.y, sz * t.z⟩ = 0 := by
  refine ⟨((Transform.Scaling sx sy sz).inverse.apply n).normalize sqrt, ?_, ?_⟩
  · simp [Shape.scale3D, hn]
  · apply Vec3.normalize_dot_eq_zero
    rw [Transform.Scaling_inverse_apply sx sy sz hx hy hz]
    simp only [Vec3.dot] at ht ⊢
    have e : n.x / sx * (sx * t.x) + n.y / sy * (sy * t.y) + n.z / sz * (sz * t.z)
        = n.x * t.x + n.y * t.y + n.z * t.z := by
      field_simp
      ring
    rw [e, ht]

end NormalsScale

/-- Witness for C23: scaling the unit cube by `(2, 3, 4)`, the side normal `(0, -1, 0)` and the
tangent `(1, 0, 1)`, which becomes `(2, 0, 4)`. -/
theorem scale3D_normal_orthogonal_to_scaled_tangent_witness :
    ∃ n' : Vec3 ℚ,
      ((Cuboid.new (1 : ℚ) 1 1 ⟨0, 0, 0⟩ (fun _ => 0) (fun _ => 0)).toShape.scale3D
          (fun x => x) 2 3 4).normals[1]? = some n' ∧
      n'.dot ⟨2 * 1, 3 * 0, 4 * 1⟩ = 0 :=
  scale3D_normal_orthogonal_to_scaled_tangent (fun x => x)
    (Cuboid.new (1 : ℚ) 1 1 ⟨0, 0, 0⟩ (fun _ => 0) (fun _ => 0)).toShape 2 3 4
    (by norm_num) (by norm_num) (by norm_num) 1 ⟨0, -1, 0⟩ ⟨1, 0, 1⟩ rfl
    (by simp [Vec3.dot])

/-! ## Depth range of the projections -/

/-- C26: both projections use the depth range `[0, 1]`.  For `near ≠ far`, `orthoProjection`
maps a point with `z = -near` to `Z = 0`, `W = 1` and a point with `z = -far` to `Z = 1`,
`W = 1`, also when `near` or `far` is zero; and when moreover `near` and `far` are nonzero and
`fieldRatio ≥ 1`, `perspectiveProjection` returns a matrix that maps a point with `z = -near`
to `Z / W = 0` and a point with `z = -far` to `Z / W = 1`. -/
theorem projections_depth_range {K : Type} [LinearOrderedField K] (tan : K → K)
    (left right bottom top field_angle field_ratio near far x y : K) (hnf : near ≠ far) :
    ((orthoProjection left right bottom top near far).mulVec ⟨x, y, -near, 1⟩).z = 0 ∧
    ((orthoProjection left right bottom top near far).mulVec ⟨x, y, -near, 1⟩).w = 1 ∧
    ((orthoProjection left right bottom top near far).mulVec ⟨x, y, -far, 1⟩).z = 1 ∧
    ((orthoProjection left right bottom top near far).mulVec ⟨x, y, -far, 1⟩).w = 1 ∧
    (near ≠ 0 → far ≠ 0 → 1 ≤ field_ratio →
      ∃ m, perspectiveProjection tan field_angle field_ratio near far = .ok m ∧
        (m.mulVec ⟨x, y, -near, 1⟩).w ≠ 0 ∧
        (m.mulVec ⟨x, y, -near, 1⟩).z / (m.mulVec ⟨x, y, -near, 1⟩).w = 0 ∧
        (m.mulVec ⟨x, y, -far, 1⟩).w ≠ 0 ∧
        (m.mulVec ⟨x, y, -far, 1⟩).z / (m.mulVec ⟨x, y, -far, 1⟩).w = 1) := by
  have h3 : far - near ≠ 0 := sub_ne_zero.mpr hnf.symm
  refine ⟨?_, ?_, ?_, ?_, ?_⟩
  · simp only [orthoProjection, Mat4.mulVec]
    field_simp
  · simp [orthoProjection, Mat4.mulVec]
  · simp only [orthoProjection, Mat4.mulVec]
    field_simp
    ring
  · simp [orthoProjection, Mat4.mulVec]
  intro hnear hfar hratio
  refine ⟨_, perspectiveProjection_ok tan field_angle field_ratio near far
    (not_lt.mpr hratio), ?_, ?_, ?_, ?_⟩
  · simpa [Mat4.mulVec] using hnear
  · have hz : 0 * x + 0 * y + -far / (far - near) * -near + -near * far / (far - near) * 1
        = (0 : K) := by
      field_simp
      ring
    simp only [Mat4.mulVec, hz, zero_div]
  · simpa [Mat4.mulVec] using hfar
  · have hz : 0 * x + 0 * y + -far / (far - near) * -far + -near * far / (far - near) * 1
        = far := by
      field_simp
      ring
    have hw : 0 * x + 0 * y + -1 * -far + 0 * 1 = far := by ring
    simp only [Mat4.mulVec, hz, hw]
    exact div_self hfar

/-- Witness for C26, at the box `[-1, 1] x [-1, 1]`, `near = 1`, `far = 2`, ratio `3/2` and
the point `(5, 7)` of each plane, with the three conditions of the perspective half
discharged. -/
theorem projections_depth_range_witness :
    ((orthoProjection (-1 : ℚ) 1 (-1) 1 1 2).mulVec ⟨5, 7, -1, 1⟩).z = 0 ∧
    ((orthoProjection (-1 : ℚ) 1 (-1) 1 1 2).mulVec ⟨5, 7, -1, 1⟩).w = 1 ∧
    ((orthoProjection (-1 : ℚ) 1 (-1) 1 1 2).mulVec ⟨5, 7, -2, 1⟩).z = 1 ∧
    ((orthoProjection (-1 : ℚ) 1 (-1) 1 1 2).mulVec ⟨5, 7, -2, 1⟩).w = 1 ∧
    ∃ m, perspectiveProjection (fun t : ℚ => t) 1 (3 / 2) 1 2 = .ok m ∧
      (m.mulVec ⟨5, 7, -1, 1⟩).w ≠ 0 ∧
      (m.mulVec ⟨5, 7, -1, 1⟩).z / (m.mulVec ⟨5, 7, -1, 1⟩).w = 0 ∧
      (m.mulVec ⟨5, 7, -2, 1⟩).w ≠ 0 ∧
      (m.mulVec ⟨5, 7, -2, 1⟩).z / (m.mulVec ⟨5, 7, -2, 1⟩).w = 1 :=
  have h := projections_depth_range (fun t : ℚ => t) (-1) 1 (-1) 1 1 (3 / 2) 1 2 5 7
    (by norm_num)
  ⟨h.1, h.2.1, h.2.2.1, h.2.2.2.1, h.2.2.2.2 (by norm_num) (by norm_num) (by norm_num)⟩

/-! ## Cone: the rim normals and the slant edges -/

/-- C25: for `h ≠ 0` and `i < n`, rim normal `i` of `Cone(r, h, c, n)` is orthogonal to the
slant edge from rim vertex `i` to the apex, vertex `n`: `normal_i . (vertex_n - vertex_i) = 0`. -/
theorem Cone_rim_normal_orthogonal_to_slant_edge (r h : ℝ) (c : Point ℝ) (n : ℕ)
    (hh : h ≠ 0) :
    ∀ i, i < n → ∃ nrm v apex : Vec3 ℝ,
      (Cone.new Real.cos Real.sin Real.sqrt r h c n).normals[i]? = some nrm ∧
      (Cone.new Real.cos Real.sin Real.sqrt r h c n).vertices[i]? = some v ∧
      (Cone.new Real.cos Real.sin Real.sqrt r h c n).vertices[n]? = some apex ∧
      nrm.dot (apex - v) = 0 := by
  intro i hi
  have htrig := Real.cos_sq_add_sin_sq ((i : ℝ) * (_2PI_ / (n : ℝ)))
  refine ⟨(1 / Real.sqrt (1 + r * r / h / h))
        • AngleAxis.rotate Real.cos Real.sin ((i : ℝ) * (_2PI_ / (n : ℝ))) Vec3.UnitZ Vec3.UnitX
      + (r / h * (1 / Real.sqrt (1 + r * r / h / h))) • Vec3.UnitZ,
    c + r • Circle.normal Real.cos Real.sin (_2PI_ / (n : ℝ)) i,
    ⟨c.x, c.y, c.z + h⟩, ?_, ?_, ?_, ?_⟩
  · simp only [Cone.new]
    rw [List.getElem?_append_left (by simpa using hi), getElem?_range_map _ hi]
  · simp only [Cone.new]
    rw [List.getElem?_append_left (by simpa using hi), getElem?_range_map _ hi,
      Circle.at_new Real.cos Real.sin r c hi]
    rfl
  · simp only [Cone.new]
    rw [List.getElem?_append_right (by simp)]
    simp
  · simp only [AngleAxis.rotate, AngleAxis.toRotationMatrix, Mat3.mulVec, Vec3.UnitX,
      Vec3.UnitZ, Circle.normal, Vec3.smul_def, Vec3.add_def, Vec3.sub_def, Vec3.dot]
    rw [mul_comm (_2PI_ / (n : ℝ)) (i : ℝ)]
    generalize Real.cos ((i : ℝ) * (_2PI_ / (n : ℝ))) = cs at htrig
    generalize Real.sin ((i : ℝ) * (_2PI_ / (n : ℝ))) = sn at htrig
    generalize 1 / Real.sqrt (1 + r * r / h / h) = xy
    have hz : r / h * xy * h = r * xy := by field_simp
    linear_combination (-(r * xy)) * htrig + hz

/-- Witness for C25: the cone of radius 3 and height 4 over one base vertex. -/
theorem Cone_rim_normal_orthogonal_to_slant_edge_witness :
    ∃ nrm v apex : Vec3 ℝ,
      (Cone.new Real.cos Real.sin Real.sqrt 3 4 ⟨0, 0, 0⟩ 1).normals[0]? = some nrm ∧
      (Cone.new Real.cos Real.sin Real.sqrt 3 4 ⟨0, 0, 0⟩ 1).vertices[0]? = some v ∧
      (Cone.new Real.cos Real.sin Real.sqrt 3 4 ⟨0, 0, 0⟩ 1).vertices[1]? = some apex ∧
      nrm.dot (apex - v) = 0 :=
  Cone_rim_normal_orthogonal_to_slant_edge 3 4 ⟨0, 0, 0⟩ 1 (by norm_num) 0 (by decide)

/-! ## The look-at matrix as a change of frame -/

/-- The matrix of the static `transformMatrix(eye, target, up)`, with the orthogonality of
`newX` and `newZ`, under the conditions of C14. -/
theorem CartesianCS_3D.transformMatrix_static_ok (epsilon : ℝ) (eye target up : Vec3 ℝ)
    (hε : 0 ≤ epsilon) (hne : eye ≠ target) (hup : up.cross (eye - target) ≠ 0) :
    ∃ newX newY newZ : Vec3 ℝ,
      eye - target ≠ 0 ∧
      newZ = (1 / Real.sqrt (eye - target).squaredNorm) • (eye - target) ∧
      newY = newZ.cross newX ∧
      newX.dot newZ = 0 ∧
      CartesianCS_3D.transformMatrix_static Real.sqrt epsilon eye target up
        = .ok
          ⟨⟨newX.x, newX.y, newX.z, -(newX.dot eye)⟩,
           ⟨newY.x, newY.y, newY.z, -(newY.dot eye)⟩,
           ⟨newZ.x, newZ.y, newZ.z, -(newZ.dot eye)⟩,
           ⟨0, 0, 0, 1⟩⟩ := by
  have hz0 : eye - target ≠ 0 := by
    intro h
    apply hne
    cases eye; cases target
    simp only [Vec3.sub_def, Vec3.zero_def, Vec3.mk.injEq, sub_eq_zero] at h
    simp [h.1, h.2.1, h.2.2]
  obtain ⟨newZ, hnewZ⟩ : ∃ v, v = (eye - target).normalize Real.sqrt := ⟨_, rfl⟩
  have hZ : newZ.squaredNorm = 1 := by
    rw [hnewZ]; exact Vec3.squaredNorm_normalize hz0
  have hx0 : up.cross newZ ≠ 0 := by
    intro h
    rw [hnewZ, Vec3.normalize_eq_smul hz0, Vec3.cross_smul_right] at h
    have hk : 1 / Real.sqrt (eye - target).squaredNorm ≠ 0 :=
      one_div_ne_zero (Real.sqrt_pos.mpr (Vec3.squaredNorm_pos hz0)).ne'
    exact hup (Vec3.smul_eq_zero hk h)
  obtain ⟨newX, hnewX⟩ : ∃ v, v = (up.cross newZ).normalize Real.sqrt := ⟨_, rfl⟩
  have hX : newX.squaredNorm = 1 := by
    rw [hnewX]; exact Vec3.squaredNorm_normalize hx0
  have hXZ : newX.dot newZ = 0 := by
    rw [hnewX, Vec3.normalize_eq_smul hx0, Vec3.smul_dot, Vec3.cross_dot_right, mul_zero]
  obtain ⟨newY, hnewY⟩ : ∃ v, v = newZ.cross newX := ⟨_, rfl⟩
  have hY : newY.squaredNorm = 1 := by
    rw [hnewY]
    exact Vec3.squaredNorm_cross_of_orthonormal hZ hX ((Vec3.dot_comm _ _).trans hXZ)
  have hXY : newX.dot newY = 0 := by
    rw [hnewY]; exact Vec3.dot_cross_self newX newZ
  have hcross : newX.cross newY = newZ := by
    rw [hnewY]; exact Vec3.cross_cross_of_orthonormal hX hXZ
  have hnX : newX.normalized Real.sqrt = newX := Vec3.normalize_of_unit hX
  have hnY : newY.normalized Real.sqrt = newY := Vec3.normalize_of_unit hY
  have hn : ¬ |(newX.normalized Real.sqrt).dot (newY.normalized Real.sqrt)|
      > 10 * epsilon := by
    rw [hnX, hnY, hXY, abs_zero]
    exact not_lt.mpr (by positivity)
  refine ⟨newX, newY, newZ, hz0, ?_, hnewY, hXZ, ?_⟩
  · rw [hnewZ, Vec3.normalize_eq_smul hz0]
  · unfold CartesianCS_3D.transformMatrix_static
    simp only []
    rw [← hnewZ, ← hnewX, ← hnewY, CartesianCS_3D.new_ok Real.sqrt epsilon eye newX newY hn]
    simp only [CartesianCS_3D.transformMatrix, hnX, hnY, hcross]

/-- C24: for `position ≠ look_at` and `vertical` not parallel to `position - look_at` (and a
machine epsilon that is not negative) the matrix of the static
`transformMatrix(position, look_at, vertical)` maps `(position, 1)` to `(0, 0, 0, 1)` and
`(look_at, 1)` to `(0, 0, -|position - look_at|, 1)`. -/
theorem transformMatrix_static_maps_eye_and_target (epsilon : ℝ)
    (position look_at vertical : Vec3 ℝ) (hε : 0 ≤ epsilon) (hne : position ≠ look_at)
    (hup : vertical.cross (position - look_at) ≠ 0) :
    ∃ m, CartesianCS_3D.transformMatrix_static Real.sqrt epsilon position look_at vertical
        = .ok m ∧
      m.mulVec ⟨position.x, position.y, position.z, 1⟩ = ⟨0, 0, 0, 1⟩ ∧
      m.mulVec ⟨look_at.x, look_at.y, look_at.z, 1⟩
        = ⟨0, 0, -((position - look_at).norm Real.sqrt), 1⟩ := by
  obtain ⟨newX, newY, newZ, hz0, hnewZ, hnewY, hXZ, hm⟩ :=
    CartesianCS_3D.transformMatrix_static_ok epsilon position look_at vertical hε hne hup
  have hpos := Vec3.squaredNorm_pos hz0
  have ht : 0 < Real.sqrt (position - look_at).squaredNorm := Real.sqrt_pos.mpr hpos
  have htt : Real.sqrt (position - look_at).squaredNorm
      * Real.sqrt (position - look_at).squaredNorm = (position - look_at).squaredNorm :=
    Real.mul_self_sqrt hpos.le
  refine ⟨_, hm, ?_, ?_⟩
  · simp only [Mat4.mulVec, Vec3.dot, Vec4.mk.injEq]
    refine ⟨?_, ?_, ?_, ?_⟩ <;> ring
  · simp only [Vec3.norm]
    generalize Real.sqrt (position - look_at).squaredNorm = t at hnewZ ht htt
    have ht0 : t ≠ 0 := ht.ne'
    cases position with
    | mk px py pz =>
      cases look_at with
      | mk lx ly lz =>
        cases newX with
        | mk ax ay az =>
          simp only [Vec3.sub_def, Vec3.smul_def] at hnewZ
          subst hnewZ
          subst hnewY
          simp only [Vec3.dot, Vec3.squaredNorm, Vec3.sub_def] at hXZ htt
          simp only [Mat4.mulVec, Vec3.dot, Vec3.cross, Vec4.mk.injEq]
          have hXZ' : ax * (px - lx) + ay * (py - ly) + az * (pz - lz) = 0 := by
            have e : ax * (1 / t * (px - lx)) + ay * (1 / t * (py - ly))
                + az * (1 / t * (pz - lz))
                = (ax * (px - lx) + ay * (py - ly) + az * (pz - lz)) / t := by
              field_simp
            rw [e] at hXZ
            exact (div_eq_zero_iff.mp hXZ).resolve_right ht0
          refine ⟨?_, ?_, ?_, ?_⟩
          · linear_combination -hXZ'
          · ring
          · field_simp
            linear_combination htt
          · ring

/-- Witness for C24: the eye at `(0, 0, 5)` looking at the origin with `up = (0, 1, 0)`. -/
theorem transformMatrix_static_maps_eye_and_target_witness :
    ∃ m, CartesianCS_3D.transformMatrix_static Real.sqrt (1 / 8388608) ⟨0, 0, 5⟩ ⟨0, 0, 0⟩
          ⟨0, 1, 0⟩ = .ok m ∧
      m.mulVec ⟨0, 0, 5, 1⟩ = ⟨0, 0, 0, 1⟩ ∧
      m.mulVec ⟨0, 0, 0, 1⟩
        = ⟨0, 0, -(((⟨0, 0, 5⟩ : Vec3 ℝ) - ⟨0, 0, 0⟩).norm Real.sqrt), 1⟩ :=
  transformMatrix_static_maps_eye_and_target (1 / 8388608) ⟨0, 0, 5⟩ ⟨0, 0, 0⟩ ⟨0, 1, 0⟩
    (by norm_num) (by simp) (by simp [Vec3.cross])

/-! ## The frame of a coordinate system -/

/-- The cross product of two vectors is orthogonal to the first one. -/
theorem Vec3.cross_dot_left {K : Type} [LinearOrderedField K] (a b : Vec3 K) :
    (a.cross b).dot a = 0 := by
  simp only [Vec3.cross, Vec3.dot]
  ring

/-- With `epsilon = 2^-23` the pair `(1, 0, 0)`, `(1, 2^23, 0)` passes the orthogonality test
of the constructor, and the dot product of the two normalized vectors is not zero. -/
theorem CartesianCS_3D.near_orthogonal_pair :
    ¬ |((⟨1, 0, 0⟩ : Vec3 ℝ).normalized Real.sqrt).dot
          ((⟨1, 8388608, 0⟩ : Vec3 ℝ).normalized Real.sqrt)| > 10 * (1 / 8388608) ∧
      ((⟨1, 0, 0⟩ : Vec3 ℝ).normalized Real.sqrt).dot
          ((⟨1, 8388608, 0⟩ : Vec3 ℝ).normalized Real.sqrt) ≠ 0 := by
  simp only [Vec3.normalized]
  rw [Vec3.dot_normalize _ _ (by simp) (by simp)]
  have h1 : (⟨1, 0, 0⟩ : Vec3 ℝ).squaredNorm = 1 := by simp [Vec3.squaredNorm, Vec3.dot]
  have h2 : (8388608 : ℝ) ≤ Real.sqrt (⟨1, 8388608, 0⟩ : Vec3 ℝ).squaredNorm := by
    apply Real.le_sqrt_of_sq_le
    simp only [Vec3.squaredNorm, Vec3.dot]
    norm_num
  have h3 : (⟨1, 0, 0⟩ : Vec3 ℝ).dot ⟨1, 8388608, 0⟩ = 1 := by simp [Vec3.dot]
  rw [h1, h3, Real.sqrt_one, one_mul]
  generalize Real.sqrt (⟨1, 8388608, 0⟩ : Vec3 ℝ).squaredNorm = t at h2
  have ht : 0 < t := by linarith
  constructor
  · rw [abs_of_pos (by positivity)]
    apply not_lt.mpr
    rw [div_le_iff₀ ht]
    nlinarith
  · exact (one_div_pos.mpr ht).ne'

/-- C21 as amended: a coordinate system that the constructor returns for nonzero `axis_1`,
`axis_2` has axes 0 and 1 of unit length with `|axis0 . axis1| ≤ 10 * epsilon`, and axis 2
equal to `axis0 × axis1` and orthogonal to both; when `axis_1` and `axis_2` are exactly
orthogonal, axes 0 and 1 are orthogonal and axis 2 has unit length too, so the frame is
right-handed and orthonormal. -/
theorem CartesianCS_3D_frame (epsilon : ℝ) (center axis_1 axis_2 : Vec3 ℝ)
    (cs : CartesianCS_3D ℝ) (h1 : axis_1 ≠ 0) (h2 : axis_2 ≠ 0)
    (hcs : CartesianCS_3D.new Real.sqrt epsilon center axis_1 axis_2 = .ok cs) :
    cs._axis_0.norm Real.sqrt = 1 ∧
    cs._axis_1.norm Real.sqrt = 1 ∧
    |cs._axis_0.dot cs._axis_1| ≤ 10 * epsilon ∧
    cs._axis_2 = cs._axis_0.cross cs._axis_1 ∧
    cs._axis_2.dot cs._axis_0 = 0 ∧
    cs._axis_2.dot cs._axis_1 = 0 ∧
    (axis_1.dot axis_2 = 0 →
      cs._axis_0.dot cs._axis_1 = 0 ∧ cs._axis_2.norm Real.sqrt = 1) := by
  by_cases htest : |(axis_1.normalized Real.sqrt).dot (axis_2.normalized Real.sqrt)|
      > 10 * epsilon
  · rw [CartesianCS_3D.new_throws Real.sqrt epsilon center axis_1 axis_2 htest] at hcs
    exact absurd hcs (by simp)
  · rw [CartesianCS_3D.new_ok Real.sqrt epsilon center axis_1 axis_2 htest] at hcs
    have hcs' := (Except.ok.inj hcs).symm
    subst hcs'
    have hn0 : (axis_1.normalized Real.sqrt).squaredNorm = 1 := Vec3.squaredNorm_normalize h1
    have hn1 : (axis_2.normalized Real.sqrt).squaredNorm = 1 := Vec3.squaredNorm_normalize h2
    refine ⟨?_, ?_, not_lt.mp htest, rfl, Vec3.cross_dot_left _ _, Vec3.cross_dot_right _ _,
      ?_⟩
    · simp only [Vec3.norm, hn0, Real.sqrt_one]
    · simp only [Vec3.norm, hn1, Real.sqrt_one]
    · intro horth
      have hdot : (axis_1.normalized Real.sqrt).dot (axis_2.normalized Real.sqrt) = 0 := by
        simp only [Vec3.normalized]
        rw [Vec3.dot_normalize axis_1 axis_2 h1 h2, horth, zero_div]
      refine ⟨hdot, ?_⟩
      simp only [Vec3.norm, Vec3.squaredNorm_cross_of_orthonormal hn0 hn1 hdot, Real.sqrt_one]

/-- Witness for C21 as amended: the frame built from `(3, 4, 0)` and `(0, 0, 2)` at
`epsilon = 2^-23` is orthonormal, with the third axis the cross product of the first two. -/
theorem CartesianCS_3D_frame_witness :
    ∃ cs : CartesianCS_3D ℝ,
      CartesianCS_3D.new Real.sqrt (1 / 8388608) ⟨1, 2, 3⟩ ⟨3, 4, 0⟩ ⟨0, 0, 2⟩ = .ok cs ∧
      cs._axis_0.norm Real.sqrt = 1 ∧
      cs._axis_1.norm Real.sqrt = 1 ∧
      cs._axis_2 = cs._axis_0.cross cs._axis_1 ∧
      cs._axis_0.dot cs._axis_1 = 0 ∧
      cs._axis_2.norm Real.sqrt = 1 := by
  have hdot0 : (⟨3, 4, 0⟩ : Vec3 ℝ).dot ⟨0, 0, 2⟩ = 0 := by simp [Vec3.dot]
  have hn : ¬ |((⟨3, 4, 0⟩ : Vec3 ℝ).normalized Real.sqrt).dot
      ((⟨0, 0, 2⟩ : Vec3 ℝ).normalized Real.sqrt)| > 10 * (1 / 8388608) := by
    simp only [Vec3.normalized]
    rw [Vec3.dot_normalize _ _ (by simp) (by simp), hdot0, zero_div, abs_zero]
    norm_num
  have hok := CartesianCS_3D.new_ok Real.sqrt (1 / 8388608) ⟨1, 2, 3⟩ ⟨3, 4, 0⟩ ⟨0, 0, 2⟩ hn
  have h := CartesianCS_3D_frame (1 / 8388608) ⟨1, 2, 3⟩ ⟨3, 4, 0⟩ ⟨0, 0, 2⟩ _ (by simp)
    (by simp) hok
  exact ⟨_, hok, h.1, h.2.1, h.2.2.2.1, (h.2.2.2.2.2.2 hdot0).1, (h.2.2.2.2.2.2 hdot0).2⟩

/-- C21 as stated fails.  With `epsilon = 2^-23` the constructor returns a coordinate system
for `(1, 0, 0)` and `(1, 2^23, 0)` whose axes 0 and 1 are not orthogonal; and it returns one
for the zero vector and `(0, 1, 0)` whose axis 0 is the zero vector, not a unit vector. -/
theorem CartesianCS_3D_frame_not_orthonormal :
    (∃ cs : CartesianCS_3D ℝ,
      CartesianCS_3D.new Real.sqrt (1 / 8388608) ⟨0, 0, 0⟩ ⟨1, 0, 0⟩ ⟨1, 8388608, 0⟩ = .ok cs ∧
      cs._axis_0.dot cs._axis_1 ≠ 0) ∧
    (∃ cs : CartesianCS_3D ℝ,
      CartesianCS_3D.new Real.sqrt (1 / 8388608) ⟨0, 0, 0⟩ ⟨0, 0, 0⟩ ⟨0, 1, 0⟩ = .ok cs ∧
      cs._axis_0 = ⟨0, 0, 0⟩ ∧ cs._axis_0.norm Real.sqrt ≠ 1) := by
  constructor
  · exact ⟨_, CartesianCS_3D.new_ok Real.sqrt (1 / 8388608) ⟨0, 0, 0⟩ ⟨1, 0, 0⟩
      ⟨1, 8388608, 0⟩ CartesianCS_3D.near_orthogonal_pair.1,
      CartesianCS_3D.near_orthogonal_pair.2⟩
  · have hzero : (⟨0, 0, 0⟩ : Vec3 ℝ).normalized Real.sqrt = ⟨0, 0, 0⟩ := by
      simp [Vec3.normalized, Vec3.normalize, Vec3.squaredNorm, Vec3.dot]
    have hn : ¬ |((⟨0, 0, 0⟩ : Vec3 ℝ).normalized Real.sqrt).dot
        ((⟨0, 1, 0⟩ : Vec3 ℝ).normalized Real.sqrt)| > 10 * (1 / 8388608) := by
      rw [hzero]
      simp [Vec3.dot]
    refine ⟨_, CartesianCS_3D.new_ok Real.sqrt (1 / 8388608) ⟨0, 0, 0⟩ ⟨0, 0, 0⟩ ⟨0, 1, 0⟩ hn,
      hzero, ?_⟩
    simp [hzero, Vec3.norm, Vec3.squaredNorm, Vec3.dot]

end geo
